import Mathlib

/-!
Verification development for the VoiceTagEditor frontend core
(`src/App.tsx`).  The TypeScript source is shallowly embedded: JS strings
become `String`, JS arrays become `List`, optional metadata string fields
become `String` where `""` plays the role of `undefined` (every use in the
source is a truthiness test, for which the two coincide), JS `Set`/`Map`
keys become `List` membership, and JS numbers arising from `parseInt` on
digit strings are modelled as exact naturals.  JS string primitives
(`trim`, `split`, `toLowerCase`, `padStart`) are modelled by explicit
functions on `List Char` so that their behaviour is fully specified inside
the development.
-/

namespace VTE

/-- JS `a || b` on strings, where `""` encodes both the empty string and
an absent (`undefined`) field: both are falsy. -/
def jsOr (a b : String) : String := if a = "" then b else a

/-- Numeric value of a list of decimal digit characters, most significant
first (the value computed by JS `parseInt` on a digit string). -/
def digitsVal (cs : List Char) : Nat :=
  cs.foldl (fun n c => n * 10 + (c.toNat - 48)) 0

/-- Fuelled decimal-digit expansion of a natural number (most significant
digit first).  The fuel only serves structural recursion; `natDigits`
instantiates it with a sufficient amount. -/
def natDigitsFuel : Nat → Nat → List Nat
  | 0, _ => []
  | fuel + 1, n => if n < 10 then [n] else natDigitsFuel fuel (n / 10) ++ [n % 10]

/-- Decimal digits of `n`, most significant first. -/
def natDigits (n : Nat) : List Nat := natDigitsFuel (n + 1) n

/-- Decimal rendering of a natural number, modelling JS
`Number.prototype.toString()` on a non-negative integer value. -/
def natToString (n : Nat) : String := String.mk ((natDigits n).map Nat.digitChar)

/-- JS `parseInt(s, 10)` restricted to the inputs that occur in this
application (no sign, no leading whitespace): parse the longest prefix of
decimal digits; `none` models the `NaN` result. -/
def parseIntJs (s : String) : Option Nat :=
  let ds := s.toList.takeWhile Char.isDigit
  if ds.isEmpty then none else some (digitsVal ds)

/-- Characters removed from string ends by trimming (Lean's
`Char.isWhitespace`; the JS `trim` class is larger but the difference
never matters for the claims, which use the same trim on both sides). -/
def trimChars (cs : List Char) : List Char :=
  ((cs.dropWhile Char.isWhitespace).reverse.dropWhile Char.isWhitespace).reverse

/-- JS `String.prototype.trim`. -/
def jsTrim (s : String) : String := String.mk (trimChars s.toList)

/-- Split a character list at every character satisfying `p`, keeping
empty pieces, as JS `String.prototype.split` with a single-character-class
regular expression does.  Always returns at least one piece. -/
def splitChars (p : Char → Bool) : List Char → List (List Char)
  | [] => [[]]
  | c :: cs =>
    if p c then [] :: splitChars p cs
    else
      match splitChars p cs with
      | [] => [[c]]
      | d :: ds => (c :: d) :: ds

/-- JS `s.split(sep)` for a single-character separator. -/
def jsSplit (sep : Char) (s : String) : List String :=
  (splitChars (fun c => c == sep) s.toList).map String.mk

/-- JS `s.split(regex)` for a character-class regex given by a list of
separator characters. -/
def jsSplitAny (seps : List Char) (s : String) : List String :=
  (splitChars (fun c => seps.contains c) s.toList).map String.mk

end VTE

namespace VTE

theorem natDigitsFuel_congr :
    ∀ (f1 : Nat), ∀ (f2 n : Nat), n < f1 → n < f2 →
      natDigitsFuel f1 n = natDigitsFuel f2 n := by
  intro f1
  induction f1 with
  | zero => intro f2 n h1 _; omega
  | succ k ih =>
    intro f2 n h1 h2
    cases f2 with
    | zero => omega
    | succ m =>
      simp only [natDigitsFuel]
      by_cases h10 : n < 10
      · simp [h10]
      · simp only [h10, if_false]
        have hdiv : n / 10 < n := Nat.div_lt_self (by omega) (by omega)
        rw [ih m (n / 10) (by omega) (by omega)]

theorem natDigitsFuel_succ (fuel n : Nat) :
    natDigitsFuel (fuel + 1) n =
      if n < 10 then [n] else natDigitsFuel fuel (n / 10) ++ [n % 10] := rfl

theorem natDigits_unfold (n : Nat) :
    natDigits n = if n < 10 then [n] else natDigits (n / 10) ++ [n % 10] := by
  unfold natDigits
  rw [natDigitsFuel_succ]
  by_cases h10 : n < 10
  · simp [h10]
  · have hdiv : n / 10 < n := Nat.div_lt_self (by omega) (by omega)
    simp only [h10, if_false]
    rw [natDigitsFuel_congr n (n / 10 + 1) (n / 10) (by omega) (by omega)]

theorem natDigits_ne_nil (n : Nat) : natDigits n ≠ [] := by
  rw [natDigits_unfold]
  by_cases h10 : n < 10 <;> simp [h10]

theorem natDigits_mem_lt (n : Nat) : ∀ d ∈ natDigits n, d < 10 := by
  induction n using Nat.strong_induction_on with
  | _ n ih =>
    rw [natDigits_unfold]
    by_cases h10 : n < 10
    · simp [h10]
    · simp only [h10, if_false]
      intro d hd
      rcases List.mem_append.mp hd with h | h
      · exact ih (n / 10) (Nat.div_lt_self (by omega) (by omega)) d h
      · simp at h; omega

theorem natDigits_head_ne_zero (n : Nat) (hn : n ≠ 0) :
    (natDigits n).head? ≠ some 0 := by
  induction n using Nat.strong_induction_on with
  | _ n ih =>
    rw [natDigits_unfold]
    by_cases h10 : n < 10
    · simp [h10]; omega
    · simp only [h10, if_false]
      have hne := natDigits_ne_nil (n / 10)
      have : (natDigits (n / 10) ++ [n % 10]).head? = (natDigits (n / 10)).head? := by
        cases h : natDigits (n / 10) with
        | nil => exact absurd h hne
        | cons a l => simp
      rw [this]
      exact ih (n / 10) (Nat.div_lt_self (by omega) (by omega)) (by omega)

theorem digitChar_isDigit (d : Nat) (hd : d < 10) : (Nat.digitChar d).isDigit = true := by
  interval_cases d <;> decide

theorem digitChar_ne_zero (d : Nat) (hd : d < 10) (h0 : d ≠ 0) :
    Nat.digitChar d ≠ '0' := by
  interval_cases d <;> revert h0 <;> decide

theorem natToString_canonical (n : Nat) :
    (natToString n).toList ≠ [] ∧
    (∀ c ∈ (natToString n).toList, c.isDigit = true) ∧
    ((natToString n).toList.head? = some '0' → natToString n = "0") := by
  refine ⟨?_, ?_, ?_⟩
  · simp only [natToString]
    have := natDigits_ne_nil n
    cases h : natDigits n with
    | nil => exact absurd h this
    | cons a l => simp [String.toList, h]
  · intro c hc
    simp only [natToString, String.toList] at hc
    obtain ⟨d, hd, rfl⟩ := List.mem_map.mp hc
    exact digitChar_isDigit d (natDigits_mem_lt n d hd)
  · intro hhead
    by_cases hn : n = 0
    · subst hn; rfl
    · exfalso
      simp only [natToString, String.toList] at hhead
      cases h : natDigits n with
      | nil => exact natDigits_ne_nil n h
      | cons a l =>
        rw [h] at hhead
        simp at hhead
        have ha : a < 10 := natDigits_mem_lt n a (by rw [h]; simp)
        have ha0 : a ≠ 0 := by
          intro h0
          apply natDigits_head_ne_zero n hn
          rw [h, h0]; rfl
        exact digitChar_ne_zero a ha ha0 hhead

theorem toList_mk (cs : List Char) : (String.mk cs).toList = cs := rfl

theorem takeWhile_of_all {α : Type} (p : α → Bool) :
    ∀ (l : List α), (∀ a ∈ l, p a = true) → l.takeWhile p = l := by
  intro l
  induction l with
  | nil => intro _; rfl
  | cons a l ih =>
    intro h
    have ha : p a = true := h a (by simp)
    simp [List.takeWhile_cons, ha, ih fun b hb => h b (by simp [hb])]

/-- Source `App.tsx` lines 216-232, `normalizeNumberString`: remove all
non-digit characters; if nothing remains return `""`; otherwise
`parseInt` the digit string (the `isNaN` guard of the source is the
`none` branch) and render it back in decimal. -/
def normalizeNumberString (value : String) : String :=
  let digitsOnly := value.toList.filter Char.isDigit
  if digitsOnly.isEmpty then ""
  else
    match parseIntJs (String.mk digitsOnly) with
    | none => ""
    | some n => natToString n

/-- Source `App.tsx` lines 234-238, `handleNumberInput`: keep only digit
characters of the typed value. -/
def handleNumberInput (value : String) : String :=
  String.mk (value.toList.filter Char.isDigit)

/-- JS `String.prototype.padStart(2, "0")`. -/
def padStart2 (s : String) : String :=
  if s.length < 2 then String.mk (List.replicate (2 - s.length) '0') ++ s else s

/-- Source `App.tsx` lines 195-200, `padNumber`: zero-pad the digit part
of the value to two characters; empty in, empty out. -/
def padNumber (value : String) : String :=
  if value = "" then ""
  else
    let numeric := String.mk (value.toList.filter Char.isDigit)
    if numeric = "" then "" else padStart2 numeric

/-- The claim's reading of `normalize_numeric`: strip non-digits, empty
remainder gives `""`, otherwise the decimal rendering of the remaining
digits parsed as an integer. -/
def specNormalize (s : String) : String :=
  let ds := s.toList.filter Char.isDigit
  if ds = [] then "" else natToString (digitsVal ds)

/-- A stored disk/track number in canonical form: empty, or a minimal
decimal string — all digits, with no leading zero unless it is "0". -/
def IsCanonicalNumeric (s : String) : Prop :=
  s = "" ∨ (s.toList ≠ [] ∧ (∀ c ∈ s.toList, c.isDigit = true) ∧
    (s.toList.head? = some '0' → s = "0"))

instance (s : String) : Decidable (IsCanonicalNumeric s) := by
  unfold IsCanonicalNumeric; infer_instance

theorem normalizeNumberString_eq_spec (s : String) :
    normalizeNumberString s = specNormalize s := by
  unfold normalizeNumberString specNormalize parseIntJs
  cases h : s.toList.filter Char.isDigit with
  | nil => simp [h]
  | cons c cs =>
    have hall : ∀ a ∈ c :: cs, Char.isDigit a = true := by
      intro a ha; rw [← h] at ha; exact (List.mem_filter.mp ha).2
    simp only [h, toList_mk, List.isEmpty_cons]
    rw [takeWhile_of_all Char.isDigit (c :: cs) hall]
    simp

theorem normalizeNumberString_canonical (s : String) :
    IsCanonicalNumeric (normalizeNumberString s) := by
  unfold normalizeNumberString
  cases h : s.toList.filter Char.isDigit with
  | nil => simp [h, IsCanonicalNumeric]
  | cons c cs =>
    have hall : ∀ a ∈ c :: cs, Char.isDigit a = true := by
      intro a ha; rw [← h] at ha; exact (List.mem_filter.mp ha).2
    simp only [h, toList_mk, List.isEmpty_cons, Bool.false_eq_true, if_false]
    unfold parseIntJs
    simp only [toList_mk]
    rw [takeWhile_of_all Char.isDigit (c :: cs) hall]
    simp only [List.isEmpty_cons, Bool.false_eq_true, if_false]
    obtain ⟨h1, h2, h3⟩ := natToString_canonical (digitsVal (c :: cs))
    exact Or.inr ⟨h1, h2, h3⟩

/-- Fuelled keep-first deduplication: keep each string's first occurrence,
drop the rest.  Fuel is only for structural recursion. -/
def firstDedupFuel : Nat → List String → List String
  | 0, _ => []
  | _ + 1, [] => []
  | fuel + 1, x :: xs => x :: firstDedupFuel fuel (xs.filter (fun y => y != x))

/-- Keep-first deduplication of a list of strings (the claim's
"duplicates removed while preserving first-occurrence order"). -/
def firstDedup (l : List String) : List String := firstDedupFuel l.length l

theorem firstDedupFuel_congr :
    ∀ (f1 : Nat), ∀ (f2 : Nat) (l : List String), l.length ≤ f1 → l.length ≤ f2 →
      firstDedupFuel f1 l = firstDedupFuel f2 l := by
  intro f1
  induction f1 with
  | zero =>
    intro f2 l h1 _
    have : l = [] := List.length_eq_zero.mp (by omega)
    subst this
    cases f2 <;> rfl
  | succ k ih =>
    intro f2 l h1 h2
    cases l with
    | nil => cases f2 <;> rfl
    | cons x xs =>
      cases f2 with
      | zero => simp at h2
      | succ m =>
        have hfl : (xs.filter (fun y => y != x)).length ≤ xs.length :=
          List.length_filter_le _ _
        simp only [firstDedupFuel]
        simp only [List.length_cons] at h1 h2
        rw [ih m (xs.filter (fun y => y != x)) (by omega) (by omega)]

theorem firstDedup_cons (x : String) (xs : List String) :
    firstDedup (x :: xs) = x :: firstDedup (xs.filter (fun y => y != x)) := by
  have hfl : (xs.filter (fun y => y != x)).length ≤ xs.length :=
    List.length_filter_le _ _
  simp only [firstDedup, List.length_cons, firstDedupFuel]
  rw [firstDedupFuel_congr xs.length (xs.filter (fun y => y != x)).length _
    (by omega) (le_refl _)]

/-- Source `App.tsx` lines 203-213, `trimAndDedup` loop body: `seen` is
the JS `Set`, `result` the output array. -/
def trimAndDedupAux (seen result : List String) : List String → List String
  | [] => result
  | raw :: rest =>
    let item := jsTrim raw
    if item = "" ∨ item ∈ seen then trimAndDedupAux seen result rest
    else trimAndDedupAux (item :: seen) (result ++ [item]) rest

/-- Source `App.tsx` lines 203-213, `trimAndDedup`: trim each entry, drop
empties, drop duplicates, preserving order. -/
def trimAndDedup (items : List String) : List String := trimAndDedupAux [] [] items

theorem trimAndDedupAux_acc :
    ∀ (l seen r : List String), trimAndDedupAux seen r l = r ++ trimAndDedupAux seen [] l := by
  intro l
  induction l with
  | nil => intro seen r; simp [trimAndDedupAux]
  | cons raw rest ih =>
    intro seen r
    simp only [trimAndDedupAux]
    by_cases h : jsTrim raw = "" ∨ jsTrim raw ∈ seen
    · simp only [h, if_true]; exact ih seen r
    · simp only [h, if_false]
      rw [ih _ (r ++ [jsTrim raw]), ih _ ([] ++ [jsTrim raw])]
      simp

theorem trimAndDedupAux_spec :
    ∀ (l seen : List String),
      trimAndDedupAux seen [] l =
        firstDedup ((l.map jsTrim).filter (fun x => decide (x ≠ "" ∧ x ∉ seen))) := by
  intro l
  induction l with
  | nil => intro seen; rfl
  | cons raw rest ih =>
    intro seen
    simp only [trimAndDedupAux, List.map_cons, List.filter_cons]
    by_cases h : jsTrim raw = "" ∨ jsTrim raw ∈ seen
    · have : decide (jsTrim raw ≠ "" ∧ jsTrim raw ∉ seen) = false := by
        simp; tauto
      simp only [h, if_true, this, Bool.false_eq_true, if_false]
      exact ih seen
    · have hd : decide (jsTrim raw ≠ "" ∧ jsTrim raw ∉ seen) = true := by
        simp; tauto
      simp only [h, if_false, hd, if_true]
      rw [trimAndDedupAux_acc, ih (jsTrim raw :: seen), firstDedup_cons]
      simp only [List.nil_append, List.singleton_append, List.cons.injEq, true_and]
      rw [List.filter_filter]
      congr 1
      apply List.filter_congr
      intro y _
      by_cases h1 : y = jsTrim raw <;> by_cases h2 : y = "" <;>
        by_cases h3 : y ∈ seen <;> simp [h1, h2, h3]

theorem trimAndDedup_eq_spec (items : List String) :
    trimAndDedup items =
      firstDedup ((items.map jsTrim).filter (fun x => decide (x ≠ ""))) := by
  unfold trimAndDedup
  rw [trimAndDedupAux_spec items []]
  congr 1
  apply List.filter_congr
  intro y _
  simp

/-- Index of the last `'.'` in a character list (JS `lastIndexOf('.')`;
`none` models the `-1` result). -/
def lastDotIdx (cs : List Char) : Option Nat :=
  ((cs.enum.filter (fun p => p.2 == '.')).map Prod.fst).getLast?

/-- Source `App.tsx` lines 255-259, `getFileNameWithoutExtension`: last
path component (`split('/').pop() || filePath`), then drop the part from
the last dot on, unless the dot is at position 0 or absent. -/
def getFileNameWithoutExtension (filePath : String) : String :=
  let fileName :=
    match (jsSplit '/' filePath).getLast? with
    | some last => if last = "" then filePath else last
    | none => filePath
  let cs := fileName.toList
  match lastDotIdx cs with
  | some i => if 0 < i then String.mk (cs.take i) else fileName
  | none => fileName

/-- UI-facing `Track` record (source `App.tsx` lines 23-31).  `filePath`
is `""` when absent; `id` is modelled as a `Nat` (the source uses a
timestamp-plus-random string, only compared for equality). -/
structure Track where
  id : Nat
  diskNumber : String
  trackNumber : String
  title : String
  artists : List String
  currentArtistInput : String
  filePath : String
  deriving Repr, DecidableEq

/-- Extracted per-file metadata (source `App.tsx` lines 33-49).  Optional
string fields use `""` for an absent value, matching every (truthiness)
use in the source; `tags` is the TXXX custom-tag list, `[]` when absent. -/
structure AudioMetadata where
  title : String := ""
  artist : String := ""
  album_artist : String := ""
  album : String := ""
  track_number : String := ""
  disk_number : String := ""
  date : String := ""
  genre : String := ""
  album_art : String := ""
  tags : List String := []
  deriving Repr, DecidableEq

/-- One extraction result (source `App.tsx` lines 51-55): per-file
metadata or a per-file error (`""` when no error). -/
structure AudioFileResult where
  file_path : String
  metadata : Option AudioMetadata := none
  error : String := ""
  deriving Repr, DecidableEq

/-- Album-level state (source `App.tsx` lines 84-93).  `albumArtwork` is
the displayed image source (`""` for `null`), `albumArtworkPath` an
external image file, `albumArtworkCachePath` the cached embedded-art
file; the latter two use `""` for `undefined`. -/
structure AlbumData where
  albumArtwork : String := ""
  albumArtworkPath : String := ""
  albumArtworkCachePath : String := ""
  albumTitle : String := ""
  albumArtist : String := ""
  releaseDate : String := ""
  tags : List String := []
  currentTagInput : String := ""
  deriving Repr, DecidableEq

/-- The two pieces of application state the extraction pipeline touches. -/
structure AppState where
  tracks : List Track
  album : AlbumData
  deriving Repr, DecidableEq

/-- The metadata of a result the fold acts on: results with a non-empty
`error` are skipped (source line 339), then the `metadata` branch is
entered (line 344). -/
def resMeta (r : AudioFileResult) : Option AudioMetadata :=
  if r.error ≠ "" then none else r.metadata

/-- Source `App.tsx` lines 404-408: split `genre` on the separator class
`[;,／、/]`, trim the pieces, drop empties. -/
def genreParts (genre : String) : List String :=
  ((jsSplitAny [';', ',', '／', '、', '/'] genre).map jsTrim).filter
    (fun t => decide (t ≠ ""))

/-- Source `App.tsx` lines 417-425: build a `Track` from one successful
extraction result.  `id` is the fresh-id counter (see `Track.id`). -/
def mkTrack (id : Nat) (filePath : String) (m : AudioMetadata) : Track where
  id := id
  diskNumber := normalizeNumberString (jsOr m.disk_number "1")
  trackNumber := normalizeNumberString (jsOr m.track_number "1")
  title := jsOr m.title (getFileNameWithoutExtension filePath)
  artists := if m.artist ≠ "" then trimAndDedup (jsSplit ';' m.artist) else []
  currentArtistInput := ""
  filePath := filePath

/-- Mutable state of the result loop in `processNewFiles` (source
`App.tsx` lines 332-336): the two first-seen flags, the album state as
updated by the `setAlbumData` calls issued so far, the `newTracks` array
and the `allTags` array. -/
structure LoopState where
  hasAlbumArt : Bool
  hasAlbumInfo : Bool
  album : AlbumData
  newTracks : List Track
  allTags : List String
  deriving Repr, DecidableEq

def initLoopState (album : AlbumData) : LoopState :=
  { hasAlbumArt := false, hasAlbumInfo := false, album := album,
    newTracks := [], allTags := [] }

/-- Album update performed by the embedded-artwork branch (source lines
349-382).  `cacheResult` is the outcome of the
`save_album_art_to_cache` backend call: on success the cache path is
stored, on failure (the `catch` branch) the previous cache path is left
untouched; both branches show the inline artwork and fold the album
fields with `||`. -/
def artSeedAlbum (a : AlbumData) (m : AudioMetadata) (cacheResult : Option String) :
    AlbumData :=
  match cacheResult with
  | some cachePath =>
    { a with
      albumArtwork := "data:image/jpeg;base64," ++ m.album_art
      albumArtworkCachePath := cachePath
      albumTitle := jsOr m.album a.albumTitle
      albumArtist := jsOr m.album_artist a.albumArtist
      releaseDate := jsOr m.date a.releaseDate }
  | none =>
    { a with
      albumArtwork := "data:image/jpeg;base64," ++ m.album_art
      albumTitle := jsOr m.album a.albumTitle
      albumArtist := jsOr m.album_artist a.albumArtist
      releaseDate := jsOr m.date a.releaseDate }

/-- Album update performed by the album-info branch (source lines
385-393): each non-empty metadata field replaces the current value
(`metadata.album || prev.albumTitle` and friends). -/
def seedFields (a : AlbumData) (m : AudioMetadata) : AlbumData :=
  { a with
    albumTitle := jsOr m.album a.albumTitle
    albumArtist := jsOr m.album_artist a.albumArtist
    releaseDate := jsOr m.date a.releaseDate }

/-- Source lines 397-401 and 409-413: push a candidate tag unless already
collected. -/
def pushIfNew (acc : List String) (x : String) : List String :=
  if x ∈ acc then acc else acc ++ [x]

/-- One iteration of the result loop of `processNewFiles` (source lines
338-429) for a successful result with metadata `m` at path `fp`.
`ext` is `hasExternalImageCandidate`; `cache` models the
`save_album_art_to_cache` backend call (argument order: base64 data,
album title, album artist; `none` is a cache-write failure). -/
def stepResult (ext : Bool) (cache : String → String → String → Option String)
    (s : LoopState) (fp : String) (m : AudioMetadata) : LoopState :=
  -- embedded-artwork branch (lines 349-382)
  let s1 : LoopState :=
    if ¬ext ∧ ¬s.hasAlbumArt ∧ m.album_art ≠ "" then
      { s with
        hasAlbumArt := true
        hasAlbumInfo := true
        album := artSeedAlbum s.album m
          (cache m.album_art (jsOr m.album "Unknown Album")
            (jsOr m.album_artist "Unknown Artist")) }
    else s
  -- album-info branch (lines 385-393)
  let s2 : LoopState :=
    if ¬s1.hasAlbumInfo ∧ (m.album ≠ "" ∨ m.album_artist ≠ "" ∨ m.date ≠ "") then
      { s1 with hasAlbumInfo := true, album := seedFields s1.album m }
    else s1
  -- tag collection (lines 395-414)
  let tags1 := if m.tags ≠ [] then m.tags.foldl pushIfNew s2.allTags else s2.allTags
  let tags2 :=
    if m.genre ≠ "" ∧ jsTrim m.genre ≠ "" then
      (genreParts m.genre).foldl pushIfNew tags1
    else tags1
  -- track creation (lines 416-427)
  { s2 with
    allTags := tags2
    newTracks := s2.newTracks ++ [mkTrack s2.newTracks.length fp m] }

/-- One iteration of the result loop for an arbitrary result: error
results are skipped (source line 339), results without metadata do
nothing (line 344). -/
def stepFoldResult (ext : Bool) (cache : String → String → String → Option String)
    (s : LoopState) (r : AudioFileResult) : LoopState :=
  match resMeta r with
  | none => s
  | some m => stepResult ext cache s r.file_path m

/-- The whole result loop of `processNewFiles` (source lines 338-429). -/
def processLoop (ext : Bool) (cache : String → String → String → Option String)
    (s : LoopState) (results : List AudioFileResult) : LoopState :=
  results.foldl (stepFoldResult ext cache) s

/-- Source lines 435-439, `comboKey`: decimal re-rendering of the two
`parseInt`ed numbers joined by `-`; a `NaN` renders as the empty
string. -/
def comboKey (t : Track) : String :=
  (match parseIntJs t.diskNumber with
   | none => ""
   | some n => natToString n) ++ "-" ++
  (match parseIntJs t.trackNumber with
   | none => ""
   | some n => natToString n)

/-- A track participating in the duplicate-key gate: both number fields
non-empty (source lines 442 and 448). -/
def bothSet (t : Track) : Prop := t.diskNumber ≠ "" ∧ t.trackNumber ≠ ""

instance (t : Track) : Decidable (bothSet t) := by unfold bothSet; infer_instance

/-- Keys of the existing tracks that carry both numbers (source lines
440-444, `existingCombos`). -/
def existingCombosKeys (tracks : List Track) : List String :=
  (tracks.filter (fun t => decide (bothSet t))).map comboKey

/-- Source lines 447-459: walk the new tracks, collecting one conflict
entry per collision.  `ek` is the existing-key set, `seen` the key set of
`seenNewCombos`, `dups` the `duplicateEntries` accumulator (the source
stores formatted message strings; the model keeps the colliding track,
one entry per message). -/
def findDuplicatesAux (ek : List String) (seen : List String) (dups : List Track) :
    List Track → List Track
  | [] => dups
  | t :: rest =>
    if ¬bothSet t then findDuplicatesAux ek seen dups rest
    else
      let k := comboKey t
      if k ∈ ek then findDuplicatesAux ek seen (dups ++ [t]) rest
      else if k ∈ seen then findDuplicatesAux ek seen (dups ++ [t]) rest
      else findDuplicatesAux ek (k :: seen) dups rest

/-- Source lines 433-459: the duplicate entries reported by the gate for
one batch of new tracks against the existing track list. -/
def findDuplicates (existing newTracks : List Track) : List Track :=
  findDuplicatesAux (existingCombosKeys existing) [] [] newTracks

/-- The claim's description of the conflicts: a new track is reported
exactly when it has both number fields set and its key collides with an
existing track's key or with the key of another new track occurring
earlier in the batch (`prior`). -/
def conflictsSpec (ek : List String) (prior : List Track) : List Track → List Track
  | [] => []
  | t :: rest =>
    (if bothSet t ∧ (comboKey t ∈ ek ∨ ∃ s ∈ prior, bothSet s ∧ comboKey s = comboKey t)
     then [t] else []) ++ conflictsSpec ek (prior ++ [t]) rest

/-- Source lines 478-491: merge the collected tags into the album tags,
dropping candidates already present and keeping order. -/
def mergeTags (prevTags allTags : List String) : List String :=
  if allTags ≠ [] then
    let newTags := allTags.filter (fun t => decide (t ∉ prevTags))
    if newTags ≠ [] then prevTags ++ newTags else prevTags
  else prevTags

/-- Source lines 311-503, `processNewFiles` modulo the asynchronous
plumbing: fold the results, run the duplicate-key gate (with `approve`
the user's answer to the `confirm` dialog), and commit.  On decline the
function returns before both `setTracks` and the tag merge (line 471);
otherwise the new tracks are appended and the tags merged. -/
def processNewFiles (st : AppState) (results : List AudioFileResult) (ext : Bool)
    (cache : String → String → String → Option String) (approve : Bool) : AppState :=
  let ls := processLoop ext cache (initLoopState st.album) results
  let dups := findDuplicates st.tracks ls.newTracks
  if ls.newTracks ≠ [] ∧ dups ≠ [] ∧ ¬approve then
    { tracks := st.tracks, album := ls.album }
  else
    { tracks := st.tracks ++ ls.newTracks,
      album := { ls.album with tags := mergeTags ls.album.tags ls.allTags } }

/-- One progress event of the extraction stream (source `App.tsx` lines
57-62). -/
structure ProgressEventM where
  current : Nat
  total : Nat
  file_path : String
  status : String
  deriving Repr, DecidableEq

/-- Modelled from the spec: the backend extraction command (Rust side,
not under `src/`) emits one `Processing` and one `Completed`/`Error`
event per submitted work item, and nothing else; no invocation, no
events. -/
def extractionProgressEvents (paths : List String) : List ProgressEventM :=
  paths.enum.flatMap fun p =>
    [⟨p.1 + 1, paths.length, p.2, "processing"⟩,
     ⟨p.1 + 1, paths.length, p.2, "completed"⟩]

/-- Outcome signal of `processAudioFiles` (source lines 267-308): either
the "all files already loaded" dialog (line 286) or the hand-off of the
deduplicated work set to `processNewFiles` (line 300). -/
inductive BatchDecision where
  | nothingToDo
  | proceed (newPaths : List String)
  deriving Repr, DecidableEq

/-- Source line 274: file paths of the currently loaded tracks,
`filter(Boolean)` dropping absent paths. -/
def loadedPaths (tracks : List Track) : List String :=
  (tracks.map Track.filePath).filter (fun p => decide (p ≠ ""))

/-- Source line 280: drop the submitted paths that are already loaded. -/
def newFilePathsOf (tracks : List Track) (filePaths : List String) : List String :=
  filePaths.filter (fun p => decide (p ∉ loadedPaths tracks))

/-- Immediate outcome of one `processAudioFiles` submission (source lines
267-308): the dedup decision, the progress events caused before the
asynchronous hand-off returns, whether the backend extraction is invoked
at all, and the track list at return (the synchronous path never changes
it). -/
structure BatchRun where
  decision : BatchDecision
  events : List ProgressEventM
  invoked : Bool
  tracksAfter : List Track
  deriving Repr, DecidableEq

/-- Source lines 267-308, `processAudioFiles`: deduplicate, and either
signal "nothing to do" without invoking extraction, or hand the work set
to `processNewFiles` (whose extraction invocation produces the progress
stream). -/
def runExtractionBatch (tracks : List Track) (filePaths : List String) : BatchRun :=
  let nfp := newFilePathsOf tracks filePaths
  if nfp = [] then
    { decision := .nothingToDo, events := [], invoked := false, tracksAfter := tracks }
  else
    { decision := .proceed nfp, events := extractionProgressEvents nfp,
      invoked := true, tracksAfter := tracks }

/-- JS `String.prototype.includes` (substring containment). -/
def containsSub (s pat : String) : Bool := decide (pat.toList <:+: s.toList)

/-- JS `String.prototype.toLowerCase`, modelled by Lean's per-character
`Char.toLower` (ASCII; the claims only involve the ASCII words "cover"
and "album"). -/
def jsToLower (s : String) : String := String.mk (s.toList.map Char.toLower)

/-- Whether the lowercased extension-less filename contains "cover". -/
def coverName (p : String) : Bool :=
  containsSub (jsToLower (getFileNameWithoutExtension p)) "cover"

/-- Whether the lowercased extension-less filename contains "album". -/
def albumName (p : String) : Bool :=
  containsSub (jsToLower (getFileNameWithoutExtension p)) "album"

/-- Source lines 639-644 (and 1109-1114), the image score: `cover` in the
extension-less lowercased filename beats `album` beats the rest. -/
def scoreImage (p : String) : Nat :=
  if coverName p then 0
  else if albumName p then 1
  else 2

/-- Stable insertion step: place `x` before the first element it compares
`le` to, keeping the relative order of elements that compare equal. -/
def insertStable {α : Type} (le : α → α → Bool) (x : α) : List α → List α
  | [] => [x]
  | y :: ys => if le x y then x :: y :: ys else y :: insertStable le x ys

/-- Stable sort by `le` (insertion sort).  JS `Array.prototype.sort` is
required to be stable (ES2019), and a stable sort for a total preorder is
unique, so this models `[...arr].sort(comparator)` exactly when
`le a b` decides `comparator(a, b) <= 0`. -/
def stableSort {α : Type} (le : α → α → Bool) : List α → List α
  | [] => []
  | x :: xs => insertStable le x (stableSort le xs)

/-- Source line 645: sort the image candidates by score (comparator
`score(a) - score(b)`). -/
def sortImagesByScore (imgs : List String) : List String :=
  stableSort (fun a b => scoreImage a ≤ scoreImage b) imgs

/-- Source line 646: the selected album image is the head of the sorted
candidate list. -/
def selectAlbumImage (imgs : List String) : Option String :=
  (sortImagesByScore imgs).head?

/-- The claim's description of the selection: first candidate whose
filename contains "cover" (case-insensitively), else first containing
"album", else the first candidate in input order. -/
def specSelectImage (imgs : List String) : Option String :=
  match imgs.find? coverName with
  | some p => some p
  | none =>
    match imgs.find? albumName with
    | some p => some p
    | none => imgs.head?

/-- Tauri `convertFileSrc`: maps a file path to an asset URL.  The exact
scheme is irrelevant to the claims; only that it is applied is. -/
def convertFileSrc (p : String) : String := "asset://localhost/" ++ p

/-- Source lines 637-656 (and 1108-1124): apply the best external image
as album artwork, clearing a cached embedded-artwork reference. -/
def applyExternalImages (a : AlbumData) (imgs : List String) : AlbumData :=
  match selectAlbumImage imgs with
  | none => a
  | some best =>
    { a with
      albumArtwork := convertFileSrc best
      albumArtworkPath := best
      albumArtworkCachePath := "" }

/-- Source lines 1022-1044, `handleSelectArtworkFile` success path:
manual artwork pick, clearing a cached embedded-artwork reference. -/
def selectArtworkFile (a : AlbumData) (path : String) : AlbumData :=
  { a with
    albumArtwork := convertFileSrc path
    albumArtworkPath := path
    albumArtworkCachePath := "" }

/-- Source lines 946-947: `parseInt(t.diskNumber) || 0`. -/
def sortNum (s : String) : Nat := (parseIntJs s).getD 0

/-- Comparator order of the track sort (source lines 943-958): disk
number first, then track number; `le a b` decides
`comparator(a, b) <= 0`. -/
def trackLe (a b : Track) : Bool :=
  sortNum a.diskNumber < sortNum b.diskNumber ∨
    (sortNum a.diskNumber = sortNum b.diskNumber ∧
      sortNum a.trackNumber ≤ sortNum b.trackNumber)

/-- Source lines 943-961, `handleSort`: stable sort of the track list by
disk then track number. -/
def handleSort (tracks : List Track) : List Track := stableSort trackLe tracks

/-- Source lines 1638-1641 (1653-1656): the `onInput` handler of the
disk (track) number field stores the digit-filtered typed value. -/
def onInputDiskNumber (tracks : List Track) (trackId : Nat) (value : String) : List Track :=
  tracks.map fun t =>
    if t.id = trackId then { t with diskNumber := handleNumberInput value } else t

/-- Source lines 1642-1644, the `onBlur` handler of the disk number
field: store `padNumber` of the field's current value. -/
def onBlurDiskNumber (tracks : List Track) (trackId : Nat) : List Track :=
  tracks.map fun t =>
    if t.id = trackId then { t with diskNumber := padNumber t.diskNumber } else t

/-- Source lines 1657-1659, the `onBlur` handler of the track number
field. -/
def onBlurTrackNumber (tracks : List Track) (trackId : Nat) : List Track :=
  tracks.map fun t =>
    if t.id = trackId then { t with trackNumber := padNumber t.trackNumber } else t

/-- One failed conversion entry (source `App.tsx` lines 79-82). -/
structure ConvertError where
  source_path : String
  error_message : String
  deriving Repr, DecidableEq

/-- Result of one backend conversion invocation (source lines 72-77). -/
structure ConvertResult where
  success : Bool
  converted_files : List String
  failed_files : List ConvertError
  total_processed : Nat
  deriving Repr, DecidableEq

/-- One conversion job as submitted to the backend (source lines
1253-1259). -/
structure ConvertTrackJob where
  source_path : String
  disk_number : String
  track_number : String
  title : String
  artists : List String
  deriving Repr, DecidableEq

/-- Source lines 1253-1259: initial job list built from the track
state. -/
def toConvertTrack (t : Track) : ConvertTrackJob where
  source_path := jsOr t.filePath ""
  disk_number := jsOr t.diskNumber "1"
  track_number := jsOr t.trackNumber "1"
  title := t.title
  artists := t.artists

/-- Source lines 1320-1330: rebuild a retry job for one failed file from
the original track data, with defaults when the track is not found. -/
def rebuildJob (tracks : List Track) (f : ConvertError) : ConvertTrackJob :=
  match tracks.find? (fun t => t.filePath == f.source_path) with
  | some t =>
    { source_path := f.source_path
      disk_number := jsOr t.diskNumber "1"
      track_number := jsOr t.trackNumber "1"
      title := jsOr t.title "Unknown"
      artists := t.artists }
  | none =>
    { source_path := f.source_path, disk_number := "1", track_number := "1",
      title := "Unknown", artists := [] }

/-- Why the export retry loop of `handleActualExport` stopped. -/
inductive StopReason where
  | allSucceeded
  | userDeclined
  | limitReached
  deriving Repr, DecidableEq

/-- Trace of one `handleActualExport` run: every round's submitted job
list with its conversion result, the accumulated `allConvertedFiles`,
and the stop reason. -/
structure ExportRun where
  rounds : List (List ConvertTrackJob × ConvertResult)
  allConverted : List String
  stopped : StopReason
  deriving Repr, DecidableEq

/-- Source lines 1280-1347, the `while (retryCount <= maxRetries)` loop.
`convert` models one `performConversion` call (stateless: its result
depends only on the submitted jobs; the round index accounts for the
external world changing between rounds), `approve` the per-round answer
to the retry dialog.  The fuel argument is `maxRetries + 1 - retryCount`;
fuel 0 is the "maximum retries reached" dialog and break (lines
1311-1317). -/
def exportLoopAux (convert : Nat → List ConvertTrackJob → ConvertResult)
    (approve : Nat → Bool) (tracks : List Track) :
    Nat → Nat → List ConvertTrackJob → ExportRun
  | 0, _, _ => { rounds := [], allConverted := [], stopped := .limitReached }
  | fuel + 1, rIdx, current =>
    let result := convert rIdx current
    if result.failed_files.isEmpty then
      { rounds := [(current, result)], allConverted := result.converted_files,
        stopped := .allSucceeded }
    else if approve rIdx then
      let rest := exportLoopAux convert approve tracks fuel (rIdx + 1)
        (result.failed_files.map (rebuildJob tracks))
      { rounds := (current, result) :: rest.rounds,
        allConverted := result.converted_files ++ rest.allConverted,
        stopped := rest.stopped }
    else
      { rounds := [(current, result)], allConverted := result.converted_files,
        stopped := .userDeclined }

/-- Source line 1284: `const maxRetries = 3`. -/
def maxRetries : Nat := 3

/-- The whole conversion/retry loop of `handleActualExport` (source lines
1280-1347), starting from the jobs built from the current tracks. -/
def exportLoop (convert : Nat → List ConvertTrackJob → ConvertResult)
    (approve : Nat → Bool) (tracks : List Track) : ExportRun :=
  exportLoopAux convert approve tracks (maxRetries + 1) 0 (tracks.map toConvertTrack)

theorem mem_insertStable {α : Type} (le : α → α → Bool) (x a : α) :
    ∀ (l : List α), a ∈ insertStable le x l ↔ a = x ∨ a ∈ l := by
  intro l
  induction l with
  | nil => simp [insertStable]
  | cons y ys ih =>
    simp only [insertStable]
    by_cases h : le x y = true
    · simp [h]
    · simp only [h, Bool.false_eq_true, if_false, List.mem_cons, ih]
      tauto

theorem mem_stableSort {α : Type} (le : α → α → Bool) (a : α) :
    ∀ (l : List α), a ∈ stableSort le l ↔ a ∈ l := by
  intro l
  induction l with
  | nil => simp [stableSort]
  | cons y ys ih =>
    simp only [stableSort, mem_insertStable, ih, List.mem_cons]

theorem length_mk (cs : List Char) : (String.mk cs).length = cs.length := rfl

theorem padNumber_empty_or_long (v : String) :
    padNumber v = "" ∨ 2 ≤ (padNumber v).length := by
  simp only [padNumber]
  by_cases h0 : v = ""
  · rw [if_pos h0]; left; rfl
  · rw [if_neg h0]
    by_cases h1 : String.mk (v.toList.filter Char.isDigit) = ""
    · rw [if_pos h1]; left; rfl
    · rw [if_neg h1]
      right
      simp only [padStart2]
      by_cases h2 : (String.mk (v.toList.filter Char.isDigit)).length < 2
      · rw [if_pos h2, String.length_append, length_mk, List.length_replicate]
        omega
      · rw [if_neg h2]; omega

end VTE

namespace VTE

/-- C1: `normalizeNumberString` strips every non-digit character; if
nothing remains it returns the empty string, otherwise the decimal
rendering of the remaining digits parsed as an integer, without leading
zeros; in particular `"007" ↦ "7"`, `"" ↦ ""`, `"ab" ↦ ""`,
`"ab12cd" ↦ "12"`. -/
theorem C1_normalize_numeric :
    (∀ s, normalizeNumberString s = specNormalize s) ∧
    (∀ s, IsCanonicalNumeric (normalizeNumberString s)) ∧
    normalizeNumberString "007" = "7" ∧
    normalizeNumberString "" = "" ∧
    normalizeNumberString "ab" = "" ∧
    normalizeNumberString "ab12cd" = "12" :=
  ⟨normalizeNumberString_eq_spec, normalizeNumberString_canonical,
    by decide, by decide, by decide, by decide⟩

/-- C6: for a non-empty `artist_raw`, the track's artists list is the
raw string split on `;`, the pieces trimmed, empties dropped and
duplicates removed keeping the first occurrence. -/
theorem C6_artist_split (m : AudioMetadata) (id : Nat) (fp : String)
    (h : m.artist ≠ "") :
    (mkTrack id fp m).artists =
      firstDedup (((jsSplit ';' m.artist).map jsTrim).filter (fun x => decide (x ≠ ""))) := by
  have hart : (mkTrack id fp m).artists = trimAndDedup (jsSplit ';' m.artist) := by
    simp [mkTrack, h]
  rw [hart]
  simpa using trimAndDedup_eq_spec (jsSplit ';' m.artist)

def c6Meta : AudioMetadata := { artist := " A ;B; ;A; C " }

theorem C6_artist_split_witness :
    (mkTrack 0 "/x/a.mp3" c6Meta).artists =
      firstDedup (((jsSplit ';' c6Meta.artist).map jsTrim).filter (fun x => decide (x ≠ ""))) :=
  C6_artist_split c6Meta 0 "/x/a.mp3" (by decide)

/-- C8: paths already loaded are dropped before any work starts, and a
batch whose submitted paths are all already loaded invokes no extraction,
emits zero progress events, leaves the track state unchanged and signals
"nothing to do", a signal distinct from any proceed outcome. -/
theorem C8_dedup_nothing_to_do :
    (∀ tracks filePaths p, p ∈ newFilePathsOf tracks filePaths ↔
      (p ∈ filePaths ∧ p ∉ loadedPaths tracks)) ∧
    (∀ tracks filePaths, (∀ p ∈ filePaths, p ∈ loadedPaths tracks) →
      runExtractionBatch tracks filePaths =
        { decision := .nothingToDo, events := [], invoked := false,
          tracksAfter := tracks }) ∧
    (∀ ps, (BatchDecision.nothingToDo : BatchDecision) ≠ .proceed ps) := by
  refine ⟨?_, ?_, ?_⟩
  · intro tracks filePaths p
    simp [newFilePathsOf, List.mem_filter]
  · intro tracks filePaths h
    have hnil : newFilePathsOf tracks filePaths = [] := by
      unfold newFilePathsOf
      rw [List.filter_eq_nil_iff]
      intro p hp
      simp [h p hp]
    simp [runExtractionBatch, hnil]
  · intro ps
    simp

def c8Track : Track :=
  { id := 1, diskNumber := "1", trackNumber := "1", title := "T", artists := [],
    currentArtistInput := "", filePath := "/music/a.mp3" }

theorem C8_dedup_nothing_to_do_witness :
    runExtractionBatch [c8Track] ["/music/a.mp3", "/music/a.mp3"] =
      { decision := .nothingToDo, events := [], invoked := false,
        tracksAfter := [c8Track] } :=
  C8_dedup_nothing_to_do.2.1 [c8Track] ["/music/a.mp3", "/music/a.mp3"] (by decide)

def c3Track : Track :=
  { id := 1, diskNumber := "2", trackNumber := "10", title := "T", artists := [],
    currentArtistInput := "", filePath := "/a.mp3" }

/-- C3 counterexample: blurring the disk-number input of a track whose
stored value is the canonical `"2"` stores the zero-padded `"02"` in the
track state, which is not a minimal decimal string. -/
theorem C3_padding_counterexample :
    onBlurDiskNumber [c3Track] 1 = [{ c3Track with diskNumber := "02" }] ∧
    ¬ IsCanonicalNumeric "02" := by
  constructor
  · decide
  · decide

/-- C3 amended: tracks created by extraction folding store canonical
disk/track numbers (empty or minimal decimal, no leading zeros), and
sorting only permutes tracks; but the disk/track input blur handlers
store `padNumber` of the field, a two-digit zero-padded form (never a
one-digit string), e.g. `"2" ↦ "02"`, so zero-padding is applied on this
write path, not only on read. -/
theorem C3_canonical_numbers_amended :
    (∀ id fp m, IsCanonicalNumeric ((mkTrack id fp m).diskNumber) ∧
      IsCanonicalNumeric ((mkTrack id fp m).trackNumber)) ∧
    (∀ tracks t, t ∈ handleSort tracks ↔ t ∈ tracks) ∧
    (∀ v, padNumber v = "" ∨ 2 ≤ (padNumber v).length) ∧
    padNumber "2" = "02" ∧
    (∀ tracks trackId, onBlurDiskNumber tracks trackId =
      tracks.map fun t =>
        if t.id = trackId then { t with diskNumber := padNumber t.diskNumber } else t) ∧
    (∀ tracks trackId, onBlurTrackNumber tracks trackId =
      tracks.map fun t =>
        if t.id = trackId then { t with trackNumber := padNumber t.trackNumber } else t) := by
  refine ⟨?_, ?_, padNumber_empty_or_long, by decide, fun _ _ => rfl, fun _ _ => rfl⟩
  · intro id fp m
    exact ⟨normalizeNumberString_canonical _, normalizeNumberString_canonical _⟩
  · intro tracks t
    exact mem_stableSort trackLe t tracks

theorem findDuplicatesAux_acc :
    ∀ (l : List Track) (ek seen : List String) (d1 d2 : List Track),
      findDuplicatesAux ek seen (d1 ++ d2) l = d1 ++ findDuplicatesAux ek seen d2 l := by
  intro l
  induction l with
  | nil => intro ek seen d1 d2; rfl
  | cons t rest ih =>
    intro ek seen d1 d2
    simp only [findDuplicatesAux]
    by_cases hb : bothSet t
    · simp only [hb, not_true_eq_false, if_false]
      by_cases h1 : comboKey t ∈ ek
      · simp only [h1, if_true]
        rw [List.append_assoc]
        exact ih ek seen d1 (d2 ++ [t])
      · simp only [h1, if_false]
        by_cases h2 : comboKey t ∈ seen
        · simp only [h2, if_true]
          rw [List.append_assoc]
          exact ih ek seen d1 (d2 ++ [t])
        · simp only [h2, if_false]
          exact ih ek _ d1 d2
    · simp only [hb, not_false_eq_true, if_true]
      exact ih ek seen d1 d2

theorem invariant_extend_of_ne (ek seen : List String) (prior : List Track) (t : Track)
    (hinv : ∀ k, k ∈ seen ↔ (k ∉ ek ∧ ∃ s ∈ prior, bothSet s ∧ comboKey s = k))
    (ht2 : ∀ k, k ∉ ek → bothSet t → comboKey t = k → k ∈ seen) :
    ∀ k, k ∈ seen ↔ (k ∉ ek ∧ ∃ s ∈ prior ++ [t], bothSet s ∧ comboKey s = k) := by
  intro k
  rw [hinv k]
  constructor
  · rintro ⟨hek, s, hs, hbs, hks⟩
    exact ⟨hek, s, List.mem_append_left _ hs, hbs, hks⟩
  · rintro ⟨hek, s, hs, hbs, hks⟩
    rcases List.mem_append.mp hs with hs | hs
    · exact ⟨hek, s, hs, hbs, hks⟩
    · rw [List.mem_singleton.mp hs] at hbs hks
      exact (hinv k).mp (ht2 k hek hbs hks)

theorem findDuplicatesAux_spec :
    ∀ (l : List Track) (ek seen : List String) (prior : List Track),
      (∀ k, k ∈ seen ↔ (k ∉ ek ∧ ∃ s ∈ prior, bothSet s ∧ comboKey s = k)) →
      findDuplicatesAux ek seen [] l = conflictsSpec ek prior l := by
  intro l
  induction l with
  | nil => intro ek seen prior _; rfl
  | cons t rest ih =>
    intro ek seen prior hinv
    simp only [findDuplicatesAux, conflictsSpec, List.nil_append]
    have hacc := findDuplicatesAux_acc rest ek seen [t] []
    simp only [List.append_nil] at hacc
    by_cases hb : bothSet t
    · rw [if_neg (not_not_intro hb)]
      by_cases h1 : comboKey t ∈ ek
      · have hinv' := invariant_extend_of_ne ek seen prior t hinv
          (fun k hek _ hkt => absurd (hkt ▸ h1) hek)
        rw [if_pos h1,
          if_pos (show bothSet t ∧ (comboKey t ∈ ek ∨
            ∃ s ∈ prior, bothSet s ∧ comboKey s = comboKey t) from ⟨hb, Or.inl h1⟩),
          hacc, ih ek seen (prior ++ [t]) hinv']
      · by_cases h2 : comboKey t ∈ seen
        · obtain ⟨hek2, s2, hs2, hbs2, hks2⟩ := (hinv (comboKey t)).mp h2
          have hinv' := invariant_extend_of_ne ek seen prior t hinv
            (fun k _ _ hkt => hkt ▸ h2)
          rw [if_neg h1, if_pos h2,
            if_pos (show bothSet t ∧ (comboKey t ∈ ek ∨
              ∃ s ∈ prior, bothSet s ∧ comboKey s = comboKey t) from
              ⟨hb, Or.inr ⟨s2, hs2, hbs2, hks2⟩⟩),
            hacc, ih ek seen (prior ++ [t]) hinv']
        · have hnot : ¬(bothSet t ∧ (comboKey t ∈ ek ∨
              ∃ s ∈ prior, bothSet s ∧ comboKey s = comboKey t)) := by
            rintro ⟨_, h | ⟨s, hs, hbs, hks⟩⟩
            · exact h1 h
            · exact h2 ((hinv (comboKey t)).mpr ⟨h1, s, hs, hbs, hks⟩)
          have hinv' : ∀ k, k ∈ comboKey t :: seen ↔
              (k ∉ ek ∧ ∃ s ∈ prior ++ [t], bothSet s ∧ comboKey s = k) := by
            intro k
            constructor
            · intro hk
              rcases List.mem_cons.mp hk with hk | hk
              · subst hk
                exact ⟨h1, t, List.mem_append_right _ (List.mem_singleton_self _), hb, rfl⟩
              · obtain ⟨hek, s, hs, hbs, hks⟩ := (hinv k).mp hk
                exact ⟨hek, s, List.mem_append_left _ hs, hbs, hks⟩
            · rintro ⟨hek, s, hs, hbs, hks⟩
              rcases List.mem_append.mp hs with hs | hs
              · exact List.mem_cons_of_mem _ ((hinv k).mpr ⟨hek, s, hs, hbs, hks⟩)
              · rw [List.mem_singleton.mp hs] at hks
                rw [← hks]
                exact List.mem_cons_self _ _
          rw [if_neg h1, if_neg h2, if_neg hnot, List.nil_append,
            ih ek (comboKey t :: seen) (prior ++ [t]) hinv']
    · have hnot : ¬(bothSet t ∧ (comboKey t ∈ ek ∨
          ∃ s ∈ prior, bothSet s ∧ comboKey s = comboKey t)) := fun h => hb h.1
      have hinv' := invariant_extend_of_ne ek seen prior t hinv
        (fun k _ hbt _ => absurd hbt hb)
      rw [if_pos hb, if_neg hnot, List.nil_append, ih ek seen (prior ++ [t]) hinv']

theorem findDuplicates_eq_spec (existing newTracks : List Track) :
    findDuplicates existing newTracks =
      conflictsSpec (existingCombosKeys existing) [] newTracks := by
  unfold findDuplicates
  apply findDuplicatesAux_spec
  intro k
  simp

theorem artSeedAlbum_tags (a : AlbumData) (m : AudioMetadata) (c : Option String) :
    (artSeedAlbum a m c).tags = a.tags := by
  cases c <;> rfl

theorem seedFields_tags (a : AlbumData) (m : AudioMetadata) :
    (seedFields a m).tags = a.tags := rfl

theorem stepResult_album_tags (ext : Bool) (cache : String → String → String → Option String)
    (s : LoopState) (fp : String) (m : AudioMetadata) :
    (stepResult ext cache s fp m).album.tags = s.album.tags := by
  simp only [stepResult]
  split_ifs <;> simp [artSeedAlbum_tags, seedFields_tags]

theorem processLoop_cons (ext : Bool) (cache : String → String → String → Option String)
    (s : LoopState) (r : AudioFileResult) (rest : List AudioFileResult) :
    processLoop ext cache s (r :: rest) =
      processLoop ext cache (stepFoldResult ext cache s r) rest := rfl

theorem stepFoldResult_album_tags (ext : Bool)
    (cache : String → String → String → Option String)
    (s : LoopState) (r : AudioFileResult) :
    (stepFoldResult ext cache s r).album.tags = s.album.tags := by
  unfold stepFoldResult
  cases resMeta r with
  | none => rfl
  | some m => exact stepResult_album_tags ext cache s r.file_path m

theorem processLoop_album_tags (ext : Bool)
    (cache : String → String → String → Option String) :
    ∀ (results : List AudioFileResult) (s : LoopState),
      (processLoop ext cache s results).album.tags = s.album.tags := by
  intro results
  induction results with
  | nil => intro s; rfl
  | cons r rest ih =>
    intro s
    rw [processLoop_cons, ih, stepFoldResult_album_tags]

theorem findDuplicates_nil (existing : List Track) : findDuplicates existing [] = [] := rfl

end VTE

namespace VTE

/-- C2: the duplicate-key gate reports a new track as a conflict exactly
when it has both number fields non-empty and its key collides with an
existing track's key or with the key of an earlier new track of the same
batch; on a declined gate the prior track list is unchanged with none of
the new tracks added, and on an approved (or conflict-free) gate all new
tracks, colliding ones included, are appended. -/
theorem C2_duplicate_key_gate :
    (∀ existing newTracks, findDuplicates existing newTracks =
        conflictsSpec (existingCombosKeys existing) [] newTracks) ∧
    (∀ st results ext cache,
      findDuplicates st.tracks
          (processLoop ext cache (initLoopState st.album) results).newTracks ≠ [] →
      (processNewFiles st results ext cache false).tracks = st.tracks) ∧
    (∀ st results ext cache approve,
      (approve = true ∨
        findDuplicates st.tracks
          (processLoop ext cache (initLoopState st.album) results).newTracks = []) →
      (processNewFiles st results ext cache approve).tracks =
        st.tracks ++ (processLoop ext cache (initLoopState st.album) results).newTracks) := by
  refine ⟨findDuplicates_eq_spec, ?_, ?_⟩
  · intro st results ext cache hd
    simp only [processNewFiles]
    rw [if_pos]
    constructor
    · intro hnil
      apply hd
      rw [hnil]
      exact findDuplicates_nil st.tracks
    · exact ⟨hd, by simp⟩
  · intro st results ext cache approve h
    simp only [processNewFiles]
    rw [if_neg]
    rintro ⟨_, hdups, hna⟩
    rcases h with h | h
    · rw [h] at hna
      simp at hna
    · exact hdups h

def c2Existing : Track :=
  { id := 0, diskNumber := "1", trackNumber := "1", title := "Old", artists := [],
    currentArtistInput := "", filePath := "/old.mp3" }

def c2St : AppState := { tracks := [c2Existing], album := {} }

def c2Meta : AudioMetadata := { title := "New", disk_number := "01", track_number := "1" }

def c2Results : List AudioFileResult := [{ file_path := "/new.mp3", metadata := some c2Meta }]

def cacheNone : String → String → String → Option String := fun _ _ _ => none

theorem C2_duplicate_key_gate_witness :
    (processNewFiles c2St c2Results false cacheNone false).tracks = c2St.tracks :=
  C2_duplicate_key_gate.2.1 c2St c2Results false cacheNone (by decide)

/-- C10: when the duplicate-key commit is declined, none of the batch's
collected tags are merged into the album tags and no track is added, but
the album title/artist/release-date/artwork updates already applied while
folding the batch remain in effect (the album state is exactly the folded
one, whose tag list is the prior tag list). -/
theorem C10_decline_frame :
    ∀ st results ext cache,
      findDuplicates st.tracks
          (processLoop ext cache (initLoopState st.album) results).newTracks ≠ [] →
      (processNewFiles st results ext cache false).tracks = st.tracks ∧
      (processNewFiles st results ext cache false).album =
        (processLoop ext cache (initLoopState st.album) results).album ∧
      (processNewFiles st results ext cache false).album.tags = st.album.tags := by
  intro st results ext cache hd
  have hcond : (processLoop ext cache (initLoopState st.album) results).newTracks ≠ [] ∧
      findDuplicates st.tracks
        (processLoop ext cache (initLoopState st.album) results).newTracks ≠ [] ∧
      ¬(false : Bool) := by
    refine ⟨?_, hd, by simp⟩
    intro hnil
    apply hd
    rw [hnil]
    exact findDuplicates_nil st.tracks
  refine ⟨?_, ?_, ?_⟩
  · simp only [processNewFiles]
    rw [if_pos hcond]
  · simp only [processNewFiles]
    rw [if_pos hcond]
  · simp only [processNewFiles]
    rw [if_pos hcond]
    exact processLoop_album_tags ext cache results (initLoopState st.album)

def c10Meta1 : AudioMetadata := { album := "Al", disk_number := "1", track_number := "1" }

def c10Meta2 : AudioMetadata := { disk_number := "1", track_number := "1" }

def c10St : AppState := { tracks := [], album := { albumTitle := "Before" } }

def c10Results : List AudioFileResult :=
  [{ file_path := "/f1.mp3", metadata := some c10Meta1 },
   { file_path := "/f2.mp3", metadata := some c10Meta2 }]

theorem C10_decline_frame_witness :
    (processNewFiles c10St c10Results false cacheNone false).tracks = c10St.tracks ∧
    (processNewFiles c10St c10Results false cacheNone false).album =
      (processLoop false cacheNone (initLoopState c10St.album) c10Results).album ∧
    (processNewFiles c10St c10Results false cacheNone false).album.tags =
      c10St.album.tags :=
  C10_decline_frame c10St c10Results false cacheNone (by decide)

theorem mem_takeWhile_pred {α : Type} (p : α → Bool) :
    ∀ (l : List α) (a : α), a ∈ l.takeWhile p → p a = true := by
  intro l
  induction l with
  | nil => intro a ha; simp at ha
  | cons x xs ih =>
    intro a ha
    rw [List.takeWhile_cons] at ha
    by_cases hx : p x = true
    · rw [if_pos hx] at ha
      rcases List.mem_cons.mp ha with rfl | ha
      · exact hx
      · exact ih a ha
    · rw [if_neg hx] at ha
      simp at ha

theorem trimChars_nil_all_ws (cs : List Char) (h : trimChars cs = []) :
    ∀ c ∈ cs, c.isWhitespace = true := by
  unfold trimChars at h
  rw [List.reverse_eq_nil_iff] at h
  have hdrop : ∀ c ∈ (cs.dropWhile Char.isWhitespace).reverse, c.isWhitespace = true :=
    List.dropWhile_eq_nil_iff.mp h
  have hdrop' : ∀ c ∈ cs.dropWhile Char.isWhitespace, c.isWhitespace = true := by
    intro c hc
    exact hdrop c (List.mem_reverse.mpr hc)
  intro c hc
  rw [← List.takeWhile_append_dropWhile Char.isWhitespace cs] at hc
  rcases List.mem_append.mp hc with hc | hc
  · exact mem_takeWhile_pred Char.isWhitespace cs c hc
  · exact hdrop' c hc

theorem splitChars_no_sep (p : Char → Bool) :
    ∀ (cs : List Char), (∀ c ∈ cs, p c = false) → splitChars p cs = [cs] := by
  intro cs
  induction cs with
  | nil => intro _; rfl
  | cons c rest ih =>
    intro h
    have hc : p c = false := h c (by simp)
    simp only [splitChars, hc, Bool.false_eq_true, if_false]
    rw [ih fun d hd => h d (by simp [hd])]

theorem mk_eq_empty_iff (cs : List Char) : String.mk cs = "" ↔ cs = [] := by
  constructor
  · intro h
    have := congrArg String.toList h
    simpa using this
  · intro h
    rw [h]

theorem genreParts_of_trim_empty (g : String) (h : jsTrim g = "") : genreParts g = [] := by
  have hnil : trimChars g.toList = [] := (mk_eq_empty_iff _).mp h
  have hws := trimChars_nil_all_ws g.toList hnil
  have hnosep : ∀ c ∈ g.toList, ([';', ',', '／', '、', '/'].contains c) = false := by
    intro c hc
    have hcw := hws c hc
    by_contra hcon
    rw [Bool.not_eq_false] at hcon
    have : c = ';' ∨ c = ',' ∨ c = '／' ∨ c = '、' ∨ c = '/' := by
      simpa using hcon
    rcases this with rfl | rfl | rfl | rfl | rfl <;> simp at hcw
  unfold genreParts jsSplitAny
  rw [splitChars_no_sep _ _ hnosep]
  simp only [List.map_cons, List.map_nil, List.filter_cons]
  have : jsTrim (String.mk g.toList) = "" := by
    unfold jsTrim
    rw [toList_mk, hnil]
  rw [this]
  decide

theorem genreParts_empty : genreParts "" = [] := by decide

theorem foldl_pushIfNew_acc :
    ∀ (l acc : List String),
      l.foldl pushIfNew acc = acc ++ firstDedup (l.filter (fun x => decide (x ∉ acc))) := by
  intro l
  induction l with
  | nil => intro acc; simp [firstDedup, firstDedupFuel]
  | cons x rest ih =>
    intro acc
    simp only [List.foldl_cons, List.filter_cons]
    by_cases hx : x ∈ acc
    · have hd : decide (x ∉ acc) = false := by simp [hx]
      rw [hd]
      simp only [Bool.false_eq_true, if_false]
      have hp : pushIfNew acc x = acc := by unfold pushIfNew; rw [if_pos hx]
      rw [hp, ih acc]
    · have hd : decide (x ∉ acc) = true := by simp [hx]
      rw [hd]
      simp only [if_true]
      have hp : pushIfNew acc x = acc ++ [x] := by unfold pushIfNew; rw [if_neg hx]
      rw [hp, ih (acc ++ [x]), firstDedup_cons, List.filter_filter]
      have hcong : (rest.filter fun a => a != x && decide (a ∉ acc)) =
          (rest.filter fun a => decide (a ∉ acc ++ [x])) := by
        apply List.filter_congr
        intro y _
        by_cases h1 : y = x <;> by_cases h2 : y ∈ acc <;> simp [h1, h2]
      rw [hcong, List.append_assoc]
      rfl

/-- Candidate tags contributed by one batch, in discovery order: for each
successful result its custom tags followed by its split-genre candidates
(trimmed, empties dropped). -/
def tagCandidatesOf (results : List AudioFileResult) : List String :=
  results.flatMap fun r =>
    match resMeta r with
    | none => []
    | some m => m.tags ++ genreParts m.genre

theorem stepResult_allTags (ext : Bool) (cache : String → String → String → Option String)
    (s : LoopState) (fp : String) (m : AudioMetadata) :
    (stepResult ext cache s fp m).allTags =
      (m.tags ++ genreParts m.genre).foldl pushIfNew s.allTags := by
  have hg : ∀ (tags1 : List String),
      (if m.genre ≠ "" ∧ jsTrim m.genre ≠ "" then
        (genreParts m.genre).foldl pushIfNew tags1 else tags1) =
      (genreParts m.genre).foldl pushIfNew tags1 := by
    intro tags1
    split_ifs with h
    · rfl
    · by_cases hg0 : m.genre = ""
      · rw [hg0, genreParts_empty]
        rfl
      · have htr : jsTrim m.genre = "" := by tauto
        rw [genreParts_of_trim_empty _ htr]
        rfl
  have ht : ∀ (x : List String),
      (if m.tags ≠ [] then m.tags.foldl pushIfNew x else x) = m.tags.foldl pushIfNew x := by
    intro x
    split_ifs with h
    · rfl
    · rw [not_ne_iff.mp h]
      rfl
  simp only [stepResult]
  rw [hg, ht, List.foldl_append]
  congr 1
  split_ifs <;> rfl

theorem stepFoldResult_allTags (ext : Bool)
    (cache : String → String → String → Option String)
    (s : LoopState) (r : AudioFileResult) :
    (stepFoldResult ext cache s r).allTags =
      (match resMeta r with
       | none => ([] : List String)
       | some m => m.tags ++ genreParts m.genre).foldl pushIfNew s.allTags := by
  unfold stepFoldResult
  cases resMeta r with
  | none => rfl
  | some m => exact stepResult_allTags ext cache s r.file_path m

theorem processLoop_allTags (ext : Bool)
    (cache : String → String → String → Option String) :
    ∀ (results : List AudioFileResult) (s : LoopState),
      (processLoop ext cache s results).allTags =
        (tagCandidatesOf results).foldl pushIfNew s.allTags := by
  intro results
  induction results with
  | nil => intro s; rfl
  | cons r rest ih =>
    intro s
    rw [processLoop_cons, ih]
    have hcand : tagCandidatesOf (r :: rest) =
        (match resMeta r with
         | none => ([] : List String)
         | some m => m.tags ++ genreParts m.genre) ++ tagCandidatesOf rest := by
      simp [tagCandidatesOf]
    rw [hcand, List.foldl_append, stepFoldResult_allTags]

theorem mergeTags_eq (prev all : List String) :
    mergeTags prev all = prev ++ all.filter (fun t => decide (t ∉ prev)) := by
  simp only [mergeTags]
  split_ifs with h1 h2
  · rfl
  · rw [not_ne_iff.mp h2]
    simp
  · rw [not_ne_iff.mp h1]
    simp

end VTE

namespace VTE

/-- C7: after folding a committed batch, the album tag list is the
pre-existing tags followed, in discovery order, by every per-file custom
tag and every split-genre candidate (trimmed, empties dropped),
de-duplicated keeping first occurrences, candidates already present
dropped; merging `["a","b"]` into existing `["b","c"]` yields
`["b","c","a"]`. -/
theorem C7_tag_aggregation :
    (∀ st results ext cache,
      (processNewFiles st results ext cache true).album.tags =
        st.album.tags ++ (firstDedup (tagCandidatesOf results)).filter
          (fun t => decide (t ∉ st.album.tags))) ∧
    mergeTags ["b", "c"] ["a", "b"] = ["b", "c", "a"] := by
  constructor
  · intro st results ext cache
    simp only [processNewFiles]
    rw [if_neg (by simp)]
    have hmain : (processLoop ext cache (initLoopState st.album) results).allTags =
        firstDedup (tagCandidatesOf results) := by
      rw [processLoop_allTags]
      have hinit : (initLoopState st.album).allTags = [] := rfl
      rw [hinit, foldl_pushIfNew_acc]
      have hfil : (tagCandidatesOf results).filter
          (fun x => decide (x ∉ ([] : List String))) = tagCandidatesOf results := by
        apply List.filter_eq_self.mpr
        intro a _
        simp
      rw [hfil]
      simp
    show mergeTags (processLoop ext cache (initLoopState st.album) results).album.tags
        (processLoop ext cache (initLoopState st.album) results).allTags = _
    rw [hmain, mergeTags_eq, processLoop_album_tags]
    rfl
  · decide

end VTE

namespace VTE

theorem exportLoopAux_length (c : Nat → List ConvertTrackJob → ConvertResult)
    (a : Nat → Bool) (t : List Track) :
    ∀ (fuel rIdx : Nat) (cur : List ConvertTrackJob),
      (exportLoopAux c a t fuel rIdx cur).rounds.length ≤ fuel := by
  intro fuel
  induction fuel with
  | zero => intro rIdx cur; simp [exportLoopAux]
  | succ k ih =>
    intro rIdx cur
    simp only [exportLoopAux]
    split_ifs with h1 h2
    · simp
    · simp only [List.length_cons]
      have := ih (rIdx + 1) ((c rIdx cur).failed_files.map (rebuildJob t))
      omega
    · simp

theorem exportLoopAux_head (c : Nat → List ConvertTrackJob → ConvertResult)
    (a : Nat → Bool) (t : List Track) :
    ∀ (fuel rIdx : Nat) (cur : List ConvertTrackJob), 0 < fuel →
      (exportLoopAux c a t fuel rIdx cur).rounds.head?.map Prod.fst = some cur := by
  intro fuel
  cases fuel with
  | zero => intro rIdx cur h; omega
  | succ k =>
    intro rIdx cur _
    simp only [exportLoopAux]
    split_ifs <;> simp

theorem exportLoopAux_chain (c : Nat → List ConvertTrackJob → ConvertResult)
    (a : Nat → Bool) (t : List Track) :
    ∀ (fuel rIdx : Nat) (cur : List ConvertTrackJob) (i : Nat)
      (x y : List ConvertTrackJob × ConvertResult),
      (exportLoopAux c a t fuel rIdx cur).rounds.get? i = some x →
      (exportLoopAux c a t fuel rIdx cur).rounds.get? (i + 1) = some y →
      y.1 = x.2.failed_files.map (rebuildJob t) := by
  intro fuel
  induction fuel with
  | zero => intro rIdx cur i x y hx _; simp [exportLoopAux] at hx
  | succ k ih =>
    intro rIdx cur i x y hx hy
    simp only [exportLoopAux] at hx hy
    by_cases h1 : (c rIdx cur).failed_files.isEmpty
    · rw [if_pos h1] at hx hy
      simp at hy
    · rw [if_neg h1] at hx hy
      by_cases h2 : a rIdx
      · rw [if_pos h2] at hx hy
        cases i with
        | zero =>
          simp only [List.get?_cons_zero, Option.some.injEq] at hx
          simp only [List.get?_cons_succ] at hy
          cases k with
          | zero => simp [exportLoopAux] at hy
          | succ k2 =>
            have hh := exportLoopAux_head c a t (k2 + 1) (rIdx + 1)
              ((c rIdx cur).failed_files.map (rebuildJob t)) (by omega)
            rw [List.get?_zero] at hy
            rw [hy] at hh
            have hh2 : some y.1 =
                some ((c rIdx cur).failed_files.map (rebuildJob t)) := by
              rw [← hh]
              rfl
            rw [Option.some.inj hh2, ← hx]
        | succ j =>
          simp only [List.get?_cons_succ] at hx hy
          exact ih (rIdx + 1) _ j x y hx hy
      · rw [if_neg h2] at hx hy
        simp at hy

theorem exportLoopAux_converted (c : Nat → List ConvertTrackJob → ConvertResult)
    (a : Nat → Bool) (t : List Track) :
    ∀ (fuel rIdx : Nat) (cur : List ConvertTrackJob),
      (exportLoopAux c a t fuel rIdx cur).allConverted =
        (exportLoopAux c a t fuel rIdx cur).rounds.flatMap
          (fun r => r.2.converted_files) := by
  intro fuel
  induction fuel with
  | zero => intro rIdx cur; simp [exportLoopAux]
  | succ k ih =>
    intro rIdx cur
    simp only [exportLoopAux]
    split_ifs with h1 h2 <;> simp [ih]

theorem exportLoopAux_result (c : Nat → List ConvertTrackJob → ConvertResult)
    (a : Nat → Bool) (t : List Track) :
    ∀ (fuel rIdx : Nat) (cur : List ConvertTrackJob) (i : Nat)
      (x : List ConvertTrackJob × ConvertResult),
      (exportLoopAux c a t fuel rIdx cur).rounds.get? i = some x →
      x.2 = c (rIdx + i) x.1 := by
  intro fuel
  induction fuel with
  | zero => intro rIdx cur i x hx; simp [exportLoopAux] at hx
  | succ k ih =>
    intro rIdx cur i x hx
    simp only [exportLoopAux] at hx
    by_cases h1 : (c rIdx cur).failed_files.isEmpty
    · rw [if_pos h1] at hx
      cases i with
      | zero =>
        simp only [List.get?_cons_zero, Option.some.injEq] at hx
        subst hx
        simp
      | succ j => simp at hx
    · rw [if_neg h1] at hx
      by_cases h2 : a rIdx
      · rw [if_pos h2] at hx
        cases i with
        | zero =>
          simp only [List.get?_cons_zero, Option.some.injEq] at hx
          subst hx
          simp
        | succ j =>
          simp only [List.get?_cons_succ] at hx
          have := ih (rIdx + 1) _ j x hx
          rw [this]
          congr 1
          omega
      · rw [if_neg h2] at hx
        cases i with
        | zero =>
          simp only [List.get?_cons_zero, Option.some.injEq] at hx
          subst hx
          simp
        | succ j => simp at hx

/-- C9: the export retry loop performs at most `maxRetries + 1 = 4`
conversion rounds; the first round submits exactly the jobs built from
the current tracks; every retry round submits exactly the jobs rebuilt
from the previous round's failed list (and no others); successes are
accumulated across rounds; and each round's outcome is exactly the
conversion function applied to that round's job list — no state is
carried between calls. -/
theorem C9_retry_protocol (convert : Nat → List ConvertTrackJob → ConvertResult)
    (approve : Nat → Bool) (tracks : List Track) :
    (exportLoop convert approve tracks).rounds.length ≤ maxRetries + 1 ∧
    (exportLoop convert approve tracks).rounds.head?.map Prod.fst =
      some (tracks.map toConvertTrack) ∧
    (∀ i x y, (exportLoop convert approve tracks).rounds.get? i = some x →
      (exportLoop convert approve tracks).rounds.get? (i + 1) = some y →
      y.1 = x.2.failed_files.map (rebuildJob tracks)) ∧
    (exportLoop convert approve tracks).allConverted =
      (exportLoop convert approve tracks).rounds.flatMap
        (fun r => r.2.converted_files) ∧
    (∀ i x, (exportLoop convert approve tracks).rounds.get? i = some x →
      x.2 = convert i x.1) := by
  refine ⟨exportLoopAux_length convert approve tracks _ _ _,
    exportLoopAux_head convert approve tracks _ _ _ (by simp [maxRetries]),
    fun i x y hx hy => exportLoopAux_chain convert approve tracks _ _ _ i x y hx hy,
    exportLoopAux_converted convert approve tracks _ _ _, ?_⟩
  intro i x hx
  have := exportLoopAux_result convert approve tracks (maxRetries + 1) 0
    (tracks.map toConvertTrack) i x hx
  rw [this]
  congr 1
  omega

def c9Track1 : Track :=
  { id := 1, diskNumber := "1", trackNumber := "1", title := "T1", artists := ["a"],
    currentArtistInput := "", filePath := "/p1.mp3" }

def c9Track2 : Track :=
  { id := 2, diskNumber := "1", trackNumber := "2", title := "T2", artists := [],
    currentArtistInput := "", filePath := "/p2.mp3" }

def c9Convert : Nat → List ConvertTrackJob → ConvertResult := fun r jobs =>
  if r = 0 then
    { success := false, converted_files := ["/out/01-01 T1.mp3"],
      failed_files := [{ source_path := "/p2.mp3", error_message := "boom" }],
      total_processed := jobs.length }
  else
    { success := true, converted_files := ["/out/01-02 T2.mp3"], failed_files := [],
      total_processed := jobs.length }

def c9Approve : Nat → Bool := fun _ => true

def c9Round0 : List ConvertTrackJob × ConvertResult :=
  ([c9Track1, c9Track2].map toConvertTrack,
    c9Convert 0 ([c9Track1, c9Track2].map toConvertTrack))

def c9Round1 : List ConvertTrackJob × ConvertResult :=
  (c9Round0.2.failed_files.map (rebuildJob [c9Track1, c9Track2]),
    c9Convert 1 (c9Round0.2.failed_files.map (rebuildJob [c9Track1, c9Track2])))

theorem C9_retry_protocol_witness :
    c9Round1.1 = c9Round0.2.failed_files.map (rebuildJob [c9Track1, c9Track2]) :=
  (C9_retry_protocol c9Convert c9Approve [c9Track1, c9Track2]).2.2.1 0 c9Round0 c9Round1
    (by decide) (by decide)

end VTE

namespace VTE

theorem length_stableSort {α : Type} (le : α → α → Bool) :
    ∀ (l : List α), (stableSort le l).length = l.length := by
  intro l
  induction l with
  | nil => rfl
  | cons x xs ih =>
    have hins : ∀ (m : List α), (insertStable le x m).length = m.length + 1 := by
      intro m
      induction m with
      | nil => rfl
      | cons y ys ihm =>
        simp only [insertStable]
        split_ifs
        · simp
        · simp [ihm]
    simp only [stableSort, hins, ih, List.length_cons]

theorem scoreImage_cover {p : String} (h : coverName p = true) : scoreImage p = 0 := by
  unfold scoreImage
  rw [if_pos h]

theorem scoreImage_album {p : String} (hc : coverName p = false)
    (ha : albumName p = true) : scoreImage p = 1 := by
  unfold scoreImage
  rw [if_neg (by simp [hc]), if_pos ha]

theorem scoreImage_plain {p : String} (hc : coverName p = false)
    (ha : albumName p = false) : scoreImage p = 2 := by
  unfold scoreImage
  rw [if_neg (by simp [hc]), if_neg (by simp [ha])]

theorem specSelectImage_single (p : String) : specSelectImage [p] = some p := by
  unfold specSelectImage
  by_cases hc : coverName p = true
  · rw [List.find?_cons_of_pos _ hc]
  · rw [List.find?_cons_of_neg _ (by simp [hc])]
    simp only [List.find?_nil]
    by_cases ha : albumName p = true
    · rw [List.find?_cons_of_pos _ ha]
    · rw [List.find?_cons_of_neg _ (by simp [ha])]
      simp

theorem specSelectImage_cons (p : String) (rest : List String) :
    specSelectImage (p :: rest) =
      if coverName p then some p
      else
        match rest.find? coverName with
        | some c => some c
        | none =>
          if albumName p then some p
          else
            match rest.find? albumName with
            | some b => some b
            | none => some p := by
  unfold specSelectImage
  by_cases hcp : coverName p = true
  · rw [List.find?_cons_of_pos _ hcp, if_pos hcp]
  · rw [List.find?_cons_of_neg _ (by simp [hcp]), if_neg (by simp [hcp])]
    cases hfc : rest.find? coverName with
    | some c => rfl
    | none =>
      by_cases hap : albumName p = true
      · rw [List.find?_cons_of_pos _ hap, if_pos hap]
      · rw [List.find?_cons_of_neg _ (by simp [hap]), if_neg (by simp [hap])]
        cases rest.find? albumName with
        | some b => rfl
        | none => simp

theorem selectAlbumImage_eq_spec : ∀ (imgs : List String),
    selectAlbumImage imgs = specSelectImage imgs := by
  intro imgs
  induction imgs with
  | nil => rfl
  | cons p rest ih =>
    have hunfold : selectAlbumImage (p :: rest) =
        (insertStable (fun a b => decide (scoreImage a ≤ scoreImage b)) p
          (sortImagesByScore rest)).head? := rfl
    rw [hunfold]
    cases hs : sortImagesByScore rest with
    | nil =>
      have hrest : rest = [] := by
        have hl := length_stableSort
          (fun a b => decide (scoreImage a ≤ scoreImage b)) rest
        rw [show stableSort (fun a b => decide (scoreImage a ≤ scoreImage b)) rest =
          sortImagesByScore rest from rfl, hs] at hl
        exact List.length_eq_zero.mp hl.symm
      subst hrest
      simp only [insertStable, List.head?_cons]
      exact (specSelectImage_single p).symm
    | cons q qs =>
      have hq : specSelectImage rest = some q := by
        rw [← ih]
        show (sortImagesByScore rest).head? = some q
        rw [hs]
        rfl
      have hhead : (insertStable (fun a b => decide (scoreImage a ≤ scoreImage b)) p
          (q :: qs)).head? =
          if scoreImage p ≤ scoreImage q then some p else some q := by
        simp only [insertStable]
        split_ifs with h1 h2 h3 <;> simp_all
      rw [hhead, specSelectImage_cons]
      unfold specSelectImage at hq
      cases hfc : rest.find? coverName with
      | some c =>
        rw [hfc] at hq
        have hqc : q = c := by simpa using hq.symm
        subst hqc
        have hcq : coverName q = true := List.find?_some hfc
        by_cases hcp : coverName p = true
        · have hle : scoreImage p ≤ scoreImage q := by
            rw [scoreImage_cover hcp]
            omega
          rw [if_pos hle, if_pos hcp]
        · have hsp : 1 ≤ scoreImage p := by
            unfold scoreImage
            rw [if_neg (by simp [hcp])]
            split_ifs <;> omega
          have hle : ¬ scoreImage p ≤ scoreImage q := by
            rw [scoreImage_cover hcq]
            omega
          rw [if_neg hle, if_neg (by simp [hcp])]
      | none =>
        rw [hfc] at hq
        have hnc : ∀ x ∈ rest, ¬ coverName x = true := List.find?_eq_none.mp hfc
        cases hfa : rest.find? albumName with
        | some b =>
          rw [hfa] at hq
          have hqb : q = b := by simpa using hq.symm
          subst hqb
          have haq : albumName q = true := List.find?_some hfa
          have hcq : coverName q = false := by
            have := hnc q (List.mem_of_find?_eq_some hfa)
            simpa using this
          have hsq : scoreImage q = 1 := scoreImage_album hcq haq
          by_cases hcp : coverName p = true
          · have hle : scoreImage p ≤ scoreImage q := by
              rw [scoreImage_cover hcp]
              omega
            rw [if_pos hle, if_pos hcp]
          · by_cases hap : albumName p = true
            · have hsp : scoreImage p = 1 := scoreImage_album (by simp [hcp]) hap
              have hle : scoreImage p ≤ scoreImage q := by rw [hsp, hsq]
              rw [if_pos hle, if_neg (by simp [hcp])]
              rw [if_pos hap]
            · have hsp : scoreImage p = 2 :=
                scoreImage_plain (by simp [hcp]) (by simp [hap])
              have hle : ¬ scoreImage p ≤ scoreImage q := by
                rw [hsp, hsq]
                omega
              rw [if_neg hle, if_neg (by simp [hcp])]
              rw [if_neg (by simp [hap])]
        | none =>
          rw [hfa] at hq
          have hna : ∀ x ∈ rest, ¬ albumName x = true := List.find?_eq_none.mp hfa
          have hqmem : q ∈ rest := by
            cases rest with
            | nil => simp at hq
            | cons r rs =>
              simp only [List.head?_cons, Option.some.injEq] at hq
              rw [← hq]
              exact List.mem_cons_self _ _
          have hsq : scoreImage q = 2 :=
            scoreImage_plain (by simpa using hnc q hqmem) (by simpa using hna q hqmem)
          by_cases hcp : coverName p = true
          · have hle : scoreImage p ≤ scoreImage q := by
              rw [scoreImage_cover hcp]
              omega
            rw [if_pos hle, if_pos hcp]
          · by_cases hap : albumName p = true
            · have hsp : scoreImage p = 1 := scoreImage_album (by simp [hcp]) hap
              have hle : scoreImage p ≤ scoreImage q := by
                rw [hsp, hsq]
                omega
              rw [if_pos hle, if_neg (by simp [hcp])]
              rw [if_pos hap]
            · have hsp : scoreImage p = 2 :=
                scoreImage_plain (by simp [hcp]) (by simp [hap])
              have hle : scoreImage p ≤ scoreImage q := by rw [hsp, hsq]
              rw [if_pos hle, if_neg (by simp [hcp])]
              rw [if_neg (by simp [hap])]

end VTE

namespace VTE

theorem stepResult_artwork_ext (cache : String → String → String → Option String)
    (s : LoopState) (fp : String) (m : AudioMetadata) :
    (stepResult true cache s fp m).album.albumArtwork = s.album.albumArtwork ∧
    (stepResult true cache s fp m).album.albumArtworkPath = s.album.albumArtworkPath ∧
    (stepResult true cache s fp m).album.albumArtworkCachePath =
      s.album.albumArtworkCachePath := by
  simp only [stepResult]
  split_ifs <;> first
  | exact ⟨rfl, rfl, rfl⟩
  | simp_all

theorem processLoop_artwork_ext (cache : String → String → String → Option String) :
    ∀ (results : List AudioFileResult) (s : LoopState),
      (processLoop true cache s results).album.albumArtwork = s.album.albumArtwork ∧
      (processLoop true cache s results).album.albumArtworkPath =
        s.album.albumArtworkPath ∧
      (processLoop true cache s results).album.albumArtworkCachePath =
        s.album.albumArtworkCachePath := by
  intro results
  induction results with
  | nil => intro s; exact ⟨rfl, rfl, rfl⟩
  | cons r rest ih =>
    intro s
    rw [processLoop_cons]
    obtain ⟨i1, i2, i3⟩ := ih (stepFoldResult true cache s r)
    have hstep : (stepFoldResult true cache s r).album.albumArtwork =
        s.album.albumArtwork ∧
        (stepFoldResult true cache s r).album.albumArtworkPath =
          s.album.albumArtworkPath ∧
        (stepFoldResult true cache s r).album.albumArtworkCachePath =
          s.album.albumArtworkCachePath := by
      unfold stepFoldResult
      cases resMeta r with
      | none => exact ⟨rfl, rfl, rfl⟩
      | some m => exact stepResult_artwork_ext cache s r.file_path m
    obtain ⟨j1, j2, j3⟩ := hstep
    exact ⟨i1.trans j1, i2.trans j2, i3.trans j3⟩

theorem processNewFiles_album_artwork (st : AppState) (results : List AudioFileResult)
    (ext : Bool) (cache : String → String → String → Option String) (approve : Bool) :
    (processNewFiles st results ext cache approve).album.albumArtwork =
      (processLoop ext cache (initLoopState st.album) results).album.albumArtwork ∧
    (processNewFiles st results ext cache approve).album.albumArtworkPath =
      (processLoop ext cache (initLoopState st.album) results).album.albumArtworkPath ∧
    (processNewFiles st results ext cache approve).album.albumArtworkCachePath =
      (processLoop ext cache (initLoopState st.album) results).album.albumArtworkCachePath := by
  simp only [processNewFiles]
  split_ifs <;> exact ⟨rfl, rfl, rfl⟩

end VTE

namespace VTE

/-- C5 amended: when external image candidates exist in the operation
they take precedence — embedded-artwork handling and caching is skipped
entirely and the artwork fields are untouched by the fold; among external
images the selected one is the first containing "cover"
(case-insensitive), else the first containing "album", else the first in
input order, stably; selecting an external artwork source (drag-drop,
directory scan or manual pick) clears a previously cached
embedded-artwork reference, and a successful embedded-artwork cache write
replaces it; but when the embedded-artwork cache write fails, the inline
artwork is applied while a previously cached reference is left in place
(not cleared). -/
theorem C5_artwork_resolution_amended :
    (∀ st results cache approve,
      (processNewFiles st results true cache approve).album.albumArtwork =
        st.album.albumArtwork ∧
      (processNewFiles st results true cache approve).album.albumArtworkPath =
        st.album.albumArtworkPath ∧
      (processNewFiles st results true cache approve).album.albumArtworkCachePath =
        st.album.albumArtworkCachePath) ∧
    (∀ imgs, selectAlbumImage imgs = specSelectImage imgs) ∧
    (∀ a imgs best, selectAlbumImage imgs = some best →
      (applyExternalImages a imgs).albumArtworkCachePath = "" ∧
      (applyExternalImages a imgs).albumArtworkPath = best ∧
      (applyExternalImages a imgs).albumArtwork = convertFileSrc best) ∧
    (∀ a path, (selectArtworkFile a path).albumArtworkCachePath = "") ∧
    (∀ s fp m cache, ¬s.hasAlbumArt → m.album_art ≠ "" →
      cache m.album_art (jsOr m.album "Unknown Album")
        (jsOr m.album_artist "Unknown Artist") = none →
      (stepResult false cache s fp m).album.albumArtworkCachePath =
        s.album.albumArtworkCachePath ∧
      (stepResult false cache s fp m).album.albumArtwork =
        "data:image/jpeg;base64," ++ m.album_art) ∧
    (∀ s fp m cache p, ¬s.hasAlbumArt → m.album_art ≠ "" →
      cache m.album_art (jsOr m.album "Unknown Album")
        (jsOr m.album_artist "Unknown Artist") = some p →
      (stepResult false cache s fp m).album.albumArtworkCachePath = p) := by
  refine ⟨?_, selectAlbumImage_eq_spec, ?_, ?_, ?_, ?_⟩
  · intro st results cache approve
    obtain ⟨h1, h2, h3⟩ := processNewFiles_album_artwork st results true cache approve
    obtain ⟨g1, g2, g3⟩ := processLoop_artwork_ext cache results (initLoopState st.album)
    exact ⟨h1.trans g1, h2.trans g2, h3.trans g3⟩
  · intro a imgs best hbest
    unfold applyExternalImages
    rw [hbest]
    exact ⟨rfl, rfl, rfl⟩
  · intro a path
    rfl
  · intro s fp m cache hflag hart hcache
    have hflag2 : s.hasAlbumArt = false := by simpa using hflag
    simp only [stepResult, hcache, artSeedAlbum]
    split_ifs <;> first
    | exact ⟨rfl, rfl⟩
    | simp_all
  · intro s fp m cache p hflag hart hcache
    have hflag2 : s.hasAlbumArt = false := by simpa using hflag
    simp only [stepResult, hcache, artSeedAlbum]
    split_ifs <;> first
    | rfl
    | simp_all

def c5Album : AlbumData := { albumArtworkCachePath := "/cache/old.jpg", albumTitle := "T" }

def c5St : AppState := { tracks := [], album := c5Album }

def c5Meta : AudioMetadata := { album_art := "QUJD" }

def c5Results : List AudioFileResult := [{ file_path := "/x/y.mp3", metadata := some c5Meta }]

/-- C5 counterexample: a batch whose embedded-artwork cache write fails
selects a new artwork source (the inline embedded bytes) yet leaves the
previously cached embedded-artwork reference in place rather than
clearing it. -/
theorem C5_cache_retention_counterexample :
    (processNewFiles c5St c5Results false cacheNone true).album.albumArtwork =
      "data:image/jpeg;base64,QUJD" ∧
    (processNewFiles c5St c5Results false cacheNone true).album.albumArtworkCachePath =
      "/cache/old.jpg" := by
  constructor
  · decide
  · decide

theorem C5_artwork_resolution_witness :
    (stepResult false cacheNone (initLoopState c5Album) "/x/y.mp3" c5Meta).album.albumArtworkCachePath =
      (initLoopState c5Album).album.albumArtworkCachePath ∧
    (stepResult false cacheNone (initLoopState c5Album) "/x/y.mp3" c5Meta).album.albumArtwork =
      "data:image/jpeg;base64," ++ c5Meta.album_art :=
  C5_artwork_resolution_amended.2.2.2.2.1 (initLoopState c5Album) "/x/y.mp3" c5Meta
    cacheNone (by decide) (by decide) rfl

end VTE

namespace VTE

/-- The three album fields the info-seeding writes. -/
def infoTriple (a : AlbumData) : String × String × String :=
  (a.albumTitle, a.albumArtist, a.releaseDate)

/-- Apply the field-overwriting seed of one optional metadata record. -/
def seedOnce (a : AlbumData) : Option AudioMetadata → AlbumData
  | none => a
  | some m => seedFields a m

/-- Whether a metadata record carries a non-empty album, album artist or
date. -/
def hasInfoB (m : AudioMetadata) : Bool :=
  decide (m.album ≠ "" ∨ m.album_artist ≠ "" ∨ m.date ≠ "")

/-- Whether a metadata record carries embedded artwork. -/
def hasArtB (m : AudioMetadata) : Bool := decide (m.album_art ≠ "")

/-- `hasArtB` on a (path, metadata) pair. -/
def hasArtPair (pm : String × AudioMetadata) : Bool := hasArtB pm.2

/-- `hasInfoB` on a (path, metadata) pair. -/
def hasInfoPair (pm : String × AudioMetadata) : Bool := hasInfoB pm.2

/-- Whether the scan for the first info carrier continues past this
result: it stops at the first result the embedded-artwork branch fires
on. -/
def keepsScanning (ext b1 : Bool) (pm : String × AudioMetadata) : Bool :=
  !(!ext && !b1 && hasArtB pm.2)

/-- The metadata record whose fields the embedded-artwork branch applies
over one batch, given the initial flags: the first artwork carrier, when
embedded artwork is in use at all. -/
def artSeedOf (ext b1 : Bool) (ms : List (String × AudioMetadata)) :
    Option AudioMetadata :=
  if ext ∨ b1 then none else (ms.find? hasArtPair).map Prod.snd

/-- The metadata record whose fields the album-info branch applies over
one batch: the first info carrier occurring strictly before any
embedded-artwork seeding. -/
def infoSeedOf (ext b1 b2 : Bool) (ms : List (String × AudioMetadata)) :
    Option AudioMetadata :=
  if b2 then none
  else ((ms.takeWhile (keepsScanning ext b1)).find? hasInfoPair).map Prod.snd

/-- The result loop restricted to successful results, as (path, metadata)
pairs. -/
def foldPairs (ext : Bool) (cache : String → String → String → Option String)
    (s : LoopState) (ms : List (String × AudioMetadata)) : LoopState :=
  ms.foldl (fun t pm => stepResult ext cache t pm.1 pm.2) s

/-- The successful results of a batch as (path, metadata) pairs. -/
def successPairs (results : List AudioFileResult) : List (String × AudioMetadata) :=
  results.filterMap fun r => (resMeta r).map fun m => (r.file_path, m)

theorem infoTriple_artSeed (a : AlbumData) (m : AudioMetadata) (c : Option String) :
    infoTriple (artSeedAlbum a m c) = infoTriple (seedFields a m) := by
  cases c <;> rfl

theorem stepResult_of_art (ext : Bool) (cache : String → String → String → Option String)
    (s : LoopState) (fp : String) (m : AudioMetadata)
    (hA : ¬ext ∧ ¬s.hasAlbumArt ∧ m.album_art ≠ "") :
    (stepResult ext cache s fp m).hasAlbumArt = true ∧
    (stepResult ext cache s fp m).hasAlbumInfo = true ∧
    infoTriple (stepResult ext cache s fp m).album = infoTriple (seedFields s.album m) := by
  simp only [stepResult]
  rw [if_pos hA]
  split_ifs with h2
  · simp at h2
  · exact ⟨rfl, rfl, infoTriple_artSeed s.album m _⟩

theorem stepResult_of_info (ext : Bool) (cache : String → String → String → Option String)
    (s : LoopState) (fp : String) (m : AudioMetadata)
    (hA : ¬(¬ext ∧ ¬s.hasAlbumArt ∧ m.album_art ≠ ""))
    (hB : ¬s.hasAlbumInfo ∧ (m.album ≠ "" ∨ m.album_artist ≠ "" ∨ m.date ≠ "")) :
    (stepResult ext cache s fp m).hasAlbumArt = s.hasAlbumArt ∧
    (stepResult ext cache s fp m).hasAlbumInfo = true ∧
    (stepResult ext cache s fp m).album = seedFields s.album m := by
  simp only [stepResult]
  rw [if_neg hA, if_pos hB]
  exact ⟨rfl, rfl, rfl⟩

theorem stepResult_of_none (ext : Bool) (cache : String → String → String → Option String)
    (s : LoopState) (fp : String) (m : AudioMetadata)
    (hA : ¬(¬ext ∧ ¬s.hasAlbumArt ∧ m.album_art ≠ ""))
    (hB : ¬(¬s.hasAlbumInfo ∧ (m.album ≠ "" ∨ m.album_artist ≠ "" ∨ m.date ≠ ""))) :
    (stepResult ext cache s fp m).hasAlbumArt = s.hasAlbumArt ∧
    (stepResult ext cache s fp m).hasAlbumInfo = s.hasAlbumInfo ∧
    (stepResult ext cache s fp m).album = s.album := by
  simp only [stepResult]
  rw [if_neg hA, if_neg hB]
  exact ⟨rfl, rfl, rfl⟩

theorem artSeedOf_nil (ext b1 : Bool) : artSeedOf ext b1 [] = none := by
  unfold artSeedOf
  split_ifs <;> rfl

theorem infoSeedOf_nil (ext b1 b2 : Bool) : infoSeedOf ext b1 b2 [] = none := by
  unfold infoSeedOf
  split_ifs <;> rfl

theorem infoSeedOf_of_b2 (ext b1 : Bool) (ms : List (String × AudioMetadata)) :
    infoSeedOf ext b1 true ms = none := by
  unfold infoSeedOf
  rw [if_pos rfl]

theorem artSeedOf_of_guard (ext b1 : Bool) (ms : List (String × AudioMetadata))
    (h : ext = true ∨ b1 = true) : artSeedOf ext b1 ms = none := by
  unfold artSeedOf
  rw [if_pos h]

theorem artSeedOf_cons_skip (ext b1 : Bool) (fp : String) (m : AudioMetadata)
    (rest : List (String × AudioMetadata))
    (h : ext = true ∨ b1 = true ∨ hasArtB m = false) :
    artSeedOf ext b1 ((fp, m) :: rest) = artSeedOf ext b1 rest := by
  unfold artSeedOf
  by_cases hg : ext = true ∨ b1 = true
  · rw [if_pos hg, if_pos hg]
  · rw [if_neg hg, if_neg hg]
    have hart : hasArtB m = false := by tauto
    have hneg : ¬(hasArtPair (fp, m) = true) := by simp [hasArtPair, hart]
    rw [List.find?_cons_of_neg _ hneg]

theorem artSeedOf_cons_art (ext b1 : Bool) (fp : String) (m : AudioMetadata)
    (rest : List (String × AudioMetadata))
    (h1 : ext = false) (h2 : b1 = false) (h3 : hasArtB m = true) :
    artSeedOf ext b1 ((fp, m) :: rest) = some m := by
  unfold artSeedOf
  have hpos : hasArtPair (fp, m) = true := h3
  rw [if_neg (by simp [h1, h2]), List.find?_cons_of_pos _ hpos]
  rfl

end VTE

namespace VTE

theorem infoSeedOf_cons_stop (ext b1 : Bool) (fp : String) (m : AudioMetadata)
    (rest : List (String × AudioMetadata))
    (hpred : keepsScanning ext b1 (fp, m) = false) :
    infoSeedOf ext b1 false ((fp, m) :: rest) = none := by
  unfold infoSeedOf
  rw [if_neg (by simp), List.takeWhile_cons, if_neg (by simp [hpred])]
  rfl

theorem infoSeedOf_cons_info (ext b1 : Bool) (fp : String) (m : AudioMetadata)
    (rest : List (String × AudioMetadata))
    (hpred : keepsScanning ext b1 (fp, m) = true)
    (hinfo : hasInfoPair (fp, m) = true) :
    infoSeedOf ext b1 false ((fp, m) :: rest) = some m := by
  unfold infoSeedOf
  rw [if_neg (by simp), List.takeWhile_cons, if_pos hpred,
    List.find?_cons_of_pos _ hinfo]
  rfl

theorem infoSeedOf_cons_skip (ext b1 : Bool) (fp : String) (m : AudioMetadata)
    (rest : List (String × AudioMetadata))
    (hpred : keepsScanning ext b1 (fp, m) = true)
    (hinfo : hasInfoPair (fp, m) = false) :
    infoSeedOf ext b1 false ((fp, m) :: rest) = infoSeedOf ext b1 false rest := by
  unfold infoSeedOf
  rw [if_neg (by simp), if_neg (by simp), List.takeWhile_cons, if_pos hpred,
    List.find?_cons_of_neg _ (by simp [hinfo])]

theorem infoFold_char (ext : Bool) (cache : String → String → String → Option String) :
    ∀ (ms : List (String × AudioMetadata)) (s : LoopState),
      infoTriple ((foldPairs ext cache s ms).album) =
        infoTriple (seedOnce (seedOnce s.album
          (infoSeedOf ext s.hasAlbumArt s.hasAlbumInfo ms))
          (artSeedOf ext s.hasAlbumArt ms)) := by
  intro ms
  induction ms with
  | nil =>
    intro s
    rw [artSeedOf_nil, infoSeedOf_nil]
    rfl
  | cons pm rest ih =>
    intro s
    obtain ⟨fp, m⟩ := pm
    have hfold : foldPairs ext cache s ((fp, m) :: rest) =
        foldPairs ext cache (stepResult ext cache s fp m) rest := rfl
    rw [hfold, ih (stepResult ext cache s fp m)]
    by_cases hA : ¬ext ∧ ¬s.hasAlbumArt ∧ m.album_art ≠ ""
    · obtain ⟨e1, e2, e3⟩ := stepResult_of_art ext cache s fp m hA
      have hext : ext = false := by simpa using hA.1
      have hb1 : s.hasAlbumArt = false := by simpa using hA.2.1
      have hart : hasArtB m = true := by
        simp only [hasArtB, decide_eq_true_eq]
        exact hA.2.2
      rw [e1, e2, infoSeedOf_of_b2, artSeedOf_of_guard ext true rest (Or.inr rfl)]
      simp only [seedOnce]
      rw [e3]
      rw [artSeedOf_cons_art ext s.hasAlbumArt fp m rest hext hb1 hart]
      cases hb2 : s.hasAlbumInfo with
      | true =>
        rw [infoSeedOf_of_b2]
      | false =>
        have hpred : keepsScanning ext s.hasAlbumArt (fp, m) = false := by
          simp [keepsScanning, hext, hb1, hart]
        rw [infoSeedOf_cons_stop ext s.hasAlbumArt fp m rest hpred]
    · have hskip : ext = true ∨ s.hasAlbumArt = true ∨ hasArtB m = false := by
        by_cases h1 : ext = true
        · exact Or.inl h1
        · by_cases h2 : s.hasAlbumArt = true
          · exact Or.inr (Or.inl h2)
          · refine Or.inr (Or.inr ?_)
            simp only [hasArtB, decide_eq_false_iff_not, Decidable.not_not]
            by_contra hc
            exact hA ⟨h1, h2, hc⟩
      have hpred : keepsScanning ext s.hasAlbumArt (fp, m) = true := by
        simp only [keepsScanning, Bool.not_eq_true']
        rcases hskip with h | h | h
        · simp [h]
        · simp [h]
        · simp [h]
      by_cases hB : ¬s.hasAlbumInfo ∧ (m.album ≠ "" ∨ m.album_artist ≠ "" ∨ m.date ≠ "")
      · obtain ⟨e1, e2, e3⟩ := stepResult_of_info ext cache s fp m hA hB
        have hb2 : s.hasAlbumInfo = false := by simpa using hB.1
        have hinfo : hasInfoPair (fp, m) = true := by
          simp only [hasInfoPair, hasInfoB, decide_eq_true_eq]
          exact hB.2
        rw [e1, e2, e3, infoSeedOf_of_b2, hb2,
          infoSeedOf_cons_info ext s.hasAlbumArt fp m rest hpred hinfo,
          artSeedOf_cons_skip ext s.hasAlbumArt fp m rest hskip]
        simp only [seedOnce]
      · obtain ⟨e1, e2, e3⟩ := stepResult_of_none ext cache s fp m hA hB
        rw [e1, e2, e3, artSeedOf_cons_skip ext s.hasAlbumArt fp m rest hskip]
        cases hb2 : s.hasAlbumInfo with
        | true => rw [infoSeedOf_of_b2, infoSeedOf_of_b2]
        | false =>
          have hinfo : hasInfoPair (fp, m) = false := by
            simp only [hasInfoPair, hasInfoB, decide_eq_false_iff_not]
            intro hc
            exact hB ⟨by simp [hb2], hc⟩
          rw [infoSeedOf_cons_skip ext s.hasAlbumArt fp m rest hpred hinfo]

end VTE

namespace VTE

theorem processLoop_eq_foldPairs (ext : Bool)
    (cache : String → String → String → Option String) :
    ∀ (results : List AudioFileResult) (s : LoopState),
      processLoop ext cache s results = foldPairs ext cache s (successPairs results) := by
  intro results
  induction results with
  | nil => intro s; rfl
  | cons r rest ih =>
    intro s
    rw [processLoop_cons]
    unfold stepFoldResult
    cases hm : resMeta r with
    | none =>
      have hp : successPairs (r :: rest) = successPairs rest := by
        simp [successPairs, hm]
      rw [hp]
      exact ih s
    | some m =>
      have hp : successPairs (r :: rest) = (r.file_path, m) :: successPairs rest := by
        simp [successPairs, hm]
      rw [hp]
      have hf : foldPairs ext cache s ((r.file_path, m) :: successPairs rest) =
          foldPairs ext cache (stepResult ext cache s r.file_path m)
            (successPairs rest) := rfl
      rw [hf]
      exact ih (stepResult ext cache s r.file_path m)

end VTE

namespace VTE

/-- C4 amended: over one batch, the album title/artist/release-date
fields are written by at most two results, each applying its non-empty
fields over the current value (overwriting already-set values, empty
fields leaving them unchanged): first the earliest result carrying a
non-empty album/album-artist/date, provided it occurs strictly before
any embedded-artwork seeding, and then the earliest result carrying
embedded artwork (when embedded artwork is in use, i.e. no external
image candidate); no other result of the batch modifies these fields. -/
theorem C4_album_seeding_amended :
    ∀ st results ext cache approve,
      infoTriple ((processNewFiles st results ext cache approve).album) =
        infoTriple (seedOnce (seedOnce st.album
          (infoSeedOf ext false false (successPairs results)))
          (artSeedOf ext false (successPairs results))) := by
  intro st results ext cache approve
  have halbum : infoTriple ((processNewFiles st results ext cache approve).album) =
      infoTriple ((processLoop ext cache (initLoopState st.album) results).album) := by
    simp only [processNewFiles]
    split_ifs <;> rfl
  rw [halbum, processLoop_eq_foldPairs, infoFold_char]
  rfl

def c4St : AppState := { tracks := [], album := { albumTitle := "Old" } }

def c4Meta : AudioMetadata := { album := "New" }

def c4Results : List AudioFileResult := [{ file_path := "/a.mp3", metadata := some c4Meta }]

/-- C4 counterexample: the album title is already set to `"Old"` when a
batch whose first (and only) result carries album `"New"` is folded, and
the aggregate ends up `"New"`: the seeding result overwrites a field that
was already set, contradicting "seeds ... only where those fields are not
already set". -/
theorem C4_seed_overwrite_counterexample :
    c4St.album.albumTitle = "Old" ∧ ("Old" : String) ≠ "" ∧
    (processNewFiles c4St c4Results false cacheNone true).album.albumTitle = "New" := by
  refine ⟨rfl, by decide, by decide⟩

end VTE
